import Mathlib

/-!
Verification of the spriteswarm automation matching-and-dispatch engine.

Each definition below is a shallow embedding of a function of the repository
(TypeScript).  JavaScript runtime values are modelled by the inductive `Value`
(an untyped tagged tree), machine numbers by `ℚ` (JavaScript float rounding is
not modelled; no claim below depends on it), and fallible code by `Except`.
-/

namespace SpriteSwarm

/-- Untyped JavaScript value tree: the payloads, contexts and intermediate
values that the matcher, path resolver and renderer operate on.
`undefined` models JavaScript `undefined`, `null` models `null`. -/
inductive Value where
  | undefined
  | null
  | bool (b : Bool)
  | num (q : ℚ)
  | str (s : String)
  | obj (fields : List (String × Value))
  | arr (elems : List Value)

/-- JavaScript `\s` / `StrWhiteSpace` character class (ASCII whitespace,
vertical tab, form feed, NBSP and the Unicode space separators). -/
def jsIsSpace (c : Char) : Bool :=
  c = ' ' || c = '\t' || c = '\n' || c = '\r' || c = '\x0b' || c = '\x0c' ||
  c = '\u00A0' || c = '\u1680' ||
  ('\u2000' ≤ c && c ≤ '\u200A') ||
  c = '\u2028' || c = '\u2029' || c = '\u202F' || c = '\u205F' || c = '\u3000' ||
  c = '\uFEFF'

/-- JavaScript `String.prototype.trim` over a character list. -/
def jsTrimList (l : List Char) : List Char :=
  ((l.dropWhile jsIsSpace).reverse.dropWhile jsIsSpace).reverse

/-- JavaScript `String.prototype.trim`. -/
def jsTrim (s : String) : String :=
  String.mk (jsTrimList s.data)

/-- Decimal digit test. -/
def isDigitChar (c : Char) : Bool :=
  '0' ≤ c && c ≤ '9'

/-- Value of a list of decimal digits (most significant first). -/
def digitsToNat (l : List Char) : Nat :=
  l.foldl (fun acc c => acc * 10 + (c.toNat - '0'.toNat)) 0

/-- JavaScript `ToNumber` applied to a string, as used by `Number(x)` and by
loose equality.  `none` models NaN.  Modelled: whitespace-only strings (give
`0`) and decimal literals with optional sign, fraction and exponent.
Hexadecimal/binary/octal literals and `Infinity` are modelled as NaN; no
settled claim depends on them. -/
def jsToNumber (s : String) : Option ℚ :=
  let t := jsTrimList s.data
  if t.isEmpty then some 0
  else
    let (sign, l1) : ℚ × List Char :=
      match t with
      | '+' :: r => (1, r)
      | '-' :: r => (-1, r)
      | _ => (1, t)
    let intDigits := l1.takeWhile isDigitChar
    let r2 := l1.drop intDigits.length
    let (fracDigits, r3) : List Char × List Char :=
      match r2 with
      | '.' :: rest => (rest.takeWhile isDigitChar, rest.drop (rest.takeWhile isDigitChar).length)
      | _ => ([], r2)
    let hasDot : Bool := match r2 with | '.' :: _ => true | _ => false
    if intDigits.isEmpty && fracDigits.isEmpty then none
    else
      let mantissa : ℚ :=
        (digitsToNat intDigits : ℚ) + (digitsToNat fracDigits : ℚ) / ((10 : ℚ) ^ fracDigits.length)
      let _ := hasDot
      match r3 with
      | [] => some (sign * mantissa)
      | 'e' :: e1 | 'E' :: e1 =>
        let (esign, e2) : Int × List Char :=
          match e1 with
          | '+' :: r => (1, r)
          | '-' :: r => (-1, r)
          | _ => (1, e1)
        let eDigits := e2.takeWhile isDigitChar
        if eDigits.isEmpty || !(e2.drop eDigits.length).isEmpty then none
        else some (sign * mantissa * (10 : ℚ) ^ (esign * (digitsToNat eDigits : Int)))
      | _ => none

/-- Decimal digit-run value (`none` when empty or not all digits). -/
def decDigitsToNat? (l : List Char) : Option Nat :=
  if l.isEmpty || !l.all isDigitChar then none else some (digitsToNat l)

/-- Canonical array index: `k` is the decimal representation of `n` with no
leading zeros or sign, as required for JavaScript array element access. -/
def canonIndex (k : String) : Option Nat :=
  match decDigitsToNat? k.data with
  | some n => if toString n = k then some n else none
  | none => none

/-- JavaScript `String.prototype.split('.')` (single-character literal
separator, no limit): `""` splits to `[""]`, separators at the ends yield
empty fields. -/
def splitDotAux : List Char → List Char → List String
  | [], cur => [String.mk cur.reverse]
  | c :: cs, cur =>
    if c = '.' then String.mk cur.reverse :: splitDotAux cs []
    else splitDotAux cs (c :: cur)

/-- `path.split('.')`. -/
def jsSplitDot (s : String) : List String := splitDotAux s.data []

/-- JavaScript property access `current[part]` for a non-null `object`-typed
`current` (plain object or array), yielding `undefined` when the property is
missing.  Array access supports canonical numeric indices and `length`. -/
def jsIndex : Value → String → Value
  | .obj fields, k =>
    match fields.find? (fun p => p.1 == k) with
    | some p => p.2
    | none => .undefined
  | .arr es, k =>
    if k = "length" then .num es.length
    else
      match canonIndex k with
      | some n => (es.get? n).getD .undefined
      | none => .undefined
  | _, _ => .undefined

/-- Loop body of `getNestedValue` (src/engine/matcher.ts): walk the already
split path segments.  `null`/`undefined` and non-`object` values stop the walk
with `undefined`; objects and arrays are indexed. -/
def walkParts : Value → List String → Value
  | current, [] => current
  | current, part :: rest =>
    match current with
    | .undefined => .undefined
    | .null => .undefined
    | .bool _ => .undefined
    | .num _ => .undefined
    | .str _ => .undefined
    | .obj fs => walkParts (jsIndex (.obj fs) part) rest
    | .arr es => walkParts (jsIndex (.arr es) part) rest

/-- `getNestedValue(obj, path)` of src/engine/matcher.ts: split the dotted
path on `.` and walk the value tree. -/
def getNestedValue (obj : Value) (path : String) : Value :=
  walkParts obj (jsSplitDot path)

/-- JavaScript `String(value)` stringification of a value tree, used by
Mustache interpolation and by `ToPrimitive` in loose equality.  Non-integer
numbers print as `num/den` (JavaScript float printing is not modelled; no
settled claim depends on it). -/
def qToString (q : ℚ) : String :=
  if q.den = 1 then toString q.num else toString q

mutual

/-- JavaScript `String(value)`.  Plain objects stringify as
`[object Object]`; arrays as their comma-joined elements. -/
def jsValueToString : Value → String
  | .undefined => "undefined"
  | .null => "null"
  | .bool b => if b then "true" else "false"
  | .num q => qToString q
  | .str s => s
  | .obj _ => "[object Object]"
  | .arr es => jsArrJoin es

/-- `Array.prototype.join(',')` as invoked by `Array.prototype.toString`:
`null`/`undefined` elements join as the empty string. -/
def jsArrJoin : List Value → String
  | [] => ""
  | [e] => jsElemToString e
  | e :: rest => jsElemToString e ++ "," ++ jsArrJoin rest
termination_by structural l => l

/-- Join behaviour for one array element. -/
def jsElemToString : Value → String
  | .undefined => ""
  | .null => ""
  | .bool b => if b then "true" else "false"
  | .num q => qToString q
  | .str s => s
  | .obj _ => "[object Object]"
  | .arr es => jsArrJoin es
termination_by structural v => v

end

/-- `t.startsWith(c) && t.endsWith(c)` for a one-character quote `c`
(as in JavaScript, a single-character string counts as wrapped). -/
def wrappedIn (l : List Char) (c : Char) : Bool :=
  match l with
  | [] => false
  | a :: _ => a = c && l.getLast? = some c

/-- Result of `parseLiteral` (src/engine/matcher.ts): a JavaScript primitive. -/
inductive Prim where
  | bool (b : Bool)
  | num (q : ℚ)
  | str (s : String)

/-- `parseLiteral(value)` of src/engine/matcher.ts: boolean literals, then
single- or double-quoted strings (quotes stripped, no escape processing),
then numbers via `Number(...)`, else the raw trimmed token. -/
def parseLiteral (value : String) : Prim :=
  let trimmed := jsTrim value
  if trimmed = "true" then .bool true
  else if trimmed = "false" then .bool false
  else if (wrappedIn trimmed.data '"') || (wrappedIn trimmed.data '\x27') then
    .str ((trimmed.drop 1).dropRight 1)
  else
    match jsToNumber trimmed with
    | some q => .num q
    | none => .str trimmed

/-- First index at which `pat` occurs as a contiguous run inside `s`. -/
def findSeq (pat : List Char) : List Char → Option Nat
  | [] => if pat.isEmpty then some 0 else none
  | c :: cs => if pat.isPrefixOf (c :: cs) then some 0 else (findSeq pat cs).map (· + 1)

/-- Length of the maximal leading `\s` run. -/
def countWs (l : List Char) : Nat := (l.takeWhile jsIsSpace).length

/-- Characters matched by the JavaScript regex `.` (no line terminators). -/
def isDotChar (c : Char) : Bool :=
  !(c = '\n' || c = '\r' || c = '\u2028' || c = '\u2029')

/-- Backtracking continuation of the matcher regexes
`/^(.+?)\s*OP\s*(.+)$/` after the first group: greedy `\s*`, the literal
operator, greedy `\s*`, then a non-empty line-terminator-free second group.
Returns the second capture group.  The descending searches model the regex
engine trying the greedy `\s*` matches longest-first. -/
def matchOpTail (op : List Char) (rest : List Char) : Option (List Char) :=
  ((List.range (countWs rest + 1)).reverse).findSome? (fun j =>
    let r1 := rest.drop j
    if op.isPrefixOf r1 then
      let r2 := r1.drop op.length
      ((List.range (countWs r2 + 1)).reverse).findSome? (fun k =>
        let tail := r2.drop k
        if !tail.isEmpty && tail.all isDotChar then some tail else none)
    else none)

/-- `expression.match(/^(.+?)\s*OP\s*(.+)$/)` for `OP` one of `!=`, `==`:
the lazy first group tries prefixes shortest-first; returns the two capture
groups. -/
def matchOpExpr (op : List Char) (s : List Char) : Option (List Char × List Char) :=
  (List.range s.length).findSome? (fun i0 =>
    let g1 := s.take (i0 + 1)
    if g1.all isDotChar then
      match matchOpTail op (s.drop (i0 + 1)) with
      | some g2 => some (g1, g2)
      | none => none
    else none)

/-- Loose equality `x == y` (ECMAScript abstract equality) between a value
and a number: strings and array joins coerce through `ToNumber`, booleans
through `0`/`1`; plain objects coerce to `[object Object]`, hence NaN. -/
def jsLooseEqNum (v : Value) (q : ℚ) : Bool :=
  match v with
  | .num q2 => q2 == q
  | .str s => match jsToNumber s with | some q2 => q2 == q | none => false
  | .bool b => (if b then (1 : ℚ) else 0) == q
  | .null => false
  | .undefined => false
  | .obj _ => false
  | .arr es => match jsToNumber (jsArrJoin es) with | some q2 => q2 == q | none => false

/-- Loose equality `x == y` between a value and a parsed literal. -/
def jsLooseEq (v : Value) (p : Prim) : Bool :=
  match p with
  | .num q => jsLooseEqNum v q
  | .bool b => jsLooseEqNum v (if b then 1 else 0)
  | .str s =>
    match v with
    | .str s2 => s2 == s
    | .num q => (match jsToNumber s with | some q2 => q == q2 | none => false)
    | .bool b => (match jsToNumber s with | some q2 => (if b then (1 : ℚ) else 0) == q2 | none => false)
    | .null => false
    | .undefined => false
    | .obj _ => "[object Object]" == s
    | .arr es => jsArrJoin es == s

/-- `evaluateExpression(expression, context)` of src/engine/matcher.ts:
try the `!=` regex first (to avoid matching `==` inside `!=`), then `==`;
with no recognized operator, log a warning and return false. -/
def evaluateExpression (expression : String) (context : Value) : Bool :=
  match matchOpExpr ['!', '='] expression.data with
  | some (pathChars, litChars) =>
    !(jsLooseEq (getNestedValue context (jsTrim (String.mk pathChars)))
        (parseLiteral (String.mk litChars)))
  | none =>
    match matchOpExpr ['=', '='] expression.data with
    | some (pathChars, litChars) =>
      jsLooseEq (getNestedValue context (jsTrim (String.mk pathChars)))
        (parseLiteral (String.mk litChars))
    | none => false

/-- `evaluateMatches(expressions, payload)` of src/engine/matcher.ts:
absent or empty rule lists always match; otherwise every expression must
evaluate true against the context `\x7b payload \x7d`. -/
def evaluateMatches (expressions : Option (List String)) (payload : Value) : Bool :=
  match expressions with
  | none => true
  | some exprs =>
    if exprs.length == 0 then true
    else exprs.all (fun expr => evaluateExpression expr (Value.obj [("payload", payload)]))

/-- Mustache token tree (mustache.js `parseTemplate` output after
`nestTokens`): text, interpolations (`name` escaped -- but escaping is
overridden to the identity in src/engine/template.ts -- and `unesc` for
`&`/triple-brace tags), comments, partials, sections and inverted
sections. -/
inductive MTok where
  | text (s : String)
  | name (n : String)
  | unesc (n : String)
  | comment
  | ptag (n : String)
  | sect (n : String) (inner : List MTok)
  | inv (n : String) (inner : List MTok)

/-- Push a (possibly empty) text run onto the token accumulator; empty runs
produce no token (mustache pushes per-character text tokens and squashes
adjacent ones, which renders identically). -/
def pushText (cs : List Char) (acc : List MTok) : List MTok :=
  if cs.isEmpty then acc else .text (String.mk cs) :: acc

/-- End of the template scan: an unclosed open section raises, as in
mustache.js (`Unclosed section`); otherwise the accumulated tokens are
returned in order. -/
def closeFrames (pos : Nat) (stack : List (Bool × String × List MTok)) (acc : List MTok) :
    Except String (List MTok) :=
  match stack with
  | [] => .ok acc.reverse
  | (_, nm, _) :: _ => .error ("Unclosed section \"" ++ nm ++ "\" at " ++ toString pos)

/-- Does the regex `\s*PAT` match at the head of `l` (some whitespace run,
backtrackable, followed by the literal `pat`)? -/
def wsThenSeqAt (pat : List Char) (l : List Char) : Bool :=
  (List.range (countWs l + 1)).any (fun j => pat.isPrefixOf (l.drop j))

/-- `scanUntil(/\s*PAT/)` match index: first position of `l` at which
`\s*PAT` matches (the scanner consumes everything before it). -/
def findWsSeq (pat : List Char) : List Char → Option Nat
  | [] => if wsThenSeqAt pat [] then some 0 else none
  | c :: cs => if wsThenSeqAt pat (c :: cs) then some 0 else (findWsSeq pat cs).map (· + 1)

/-- `scan(/\s*PAT/)`: number of characters matched at the head of `l`
(greedy whitespace, longest first), `none` if the regex does not match at
position 0.  A returned `0` corresponds to the empty match, which
JavaScript callers treat as a failed scan (empty string is falsy). -/
def scanWsSeq (pat : List Char) (l : List Char) : Option Nat :=
  ((List.range (countWs l + 1)).reverse).findSome? (fun j =>
    if pat.isPrefixOf (l.drop j) then some (j + pat.length) else none)

/-- `compileTags` of mustache.js: split the delimiter-change payload on
whitespace with limit 2 (JavaScript `split(/\s+/, 2)`); `none` models the
`Invalid tags` error when fewer than two fields result. -/
def compileTagsSplit (value : List Char) : Option (List Char × List Char) :=
  let p1 := value.takeWhile (fun c => !jsIsSpace c)
  let rest := value.drop p1.length
  match rest with
  | [] => none
  | _ =>
    let rest2 := rest.dropWhile jsIsSpace
    some (p1, rest2.takeWhile (fun c => !jsIsSpace c))

/-- One tag-scanning step shared by the plain tag types
(`name`, `#`, `^`, `/`, `>`, `&`, `!`): `scan(whiteRe)`, value :=
`scanUntil(closingTagRe)`, then the mandatory `scan(closingTagRe)` whose
failure (or empty match) raises `Unclosed tag`.  Returns the tag value, the
unconsumed rest and the updated position. -/
def scanTagValue (closeD : List Char) (r : List Char) (pos : Nat) :
    Except String (List Char × List Char × Nat) :=
  let wsW := countWs r
  let r4 := r.drop wsW
  let pos4 := pos + wsW
  let (value, r5, pos5) : List Char × List Char × Nat :=
    match findWsSeq closeD r4 with
    | none => (r4, [], pos4 + r4.length)
    | some k => (r4.take k, r4.drop k, pos4 + k)
  match scanWsSeq closeD r5 with
  | none => .error ("Unclosed tag at " ++ toString pos5)
  | some n =>
    if n = 0 then .error ("Unclosed tag at " ++ toString pos5)
    else .ok (value, r5.drop n, pos5 + n)

/-- The scanning loop of mustache.js `parseTemplate`, over the remaining
character list, with the current delimiters, the open-section stack and the
token accumulator (reversed).  Section nesting is built directly instead of
a flat list plus `nestTokens`, and standalone-line whitespace stripping
(`stripSpace`) is not modelled: no settled claim involves a template with a
standalone section or comment line.  Fuel is `length + 1`; every iteration
that continues consumes at least one character, so the fuel branch is
unreachable. -/
def parseLoop : Nat → List Char → List Char → Nat → List Char →
    List (Bool × String × List MTok) → List MTok → Except String (List MTok)
  | 0, _, _, _, _, _, _ => .error "parser fuel exhausted"
  | fuel + 1, openD, closeD, pos, rest, stack, acc =>
    match findSeq openD rest with
    | none => closeFrames (pos + rest.length) stack (pushText rest acc)
    | some i =>
      let tagStart := pos + i
      let acc1 := pushText (rest.take i) acc
      let r1 := (rest.drop i).drop openD.length
      let wsO := countWs r1
      if openD.length + wsO = 0 then
        closeFrames tagStart stack acc1
      else
        let r2 := r1.drop wsO
        let posT := tagStart + openD.length + wsO
        match r2 with
        | '=' :: r3 =>
          let wsW := countWs r3
          let r4 := r3.drop wsW
          let pos4 := posT + 1 + wsW
          let (value, r5, pos5) : List Char × List Char × Nat :=
            match findWsSeq ['='] r4 with
            | none => (r4, [], pos4 + r4.length)
            | some k => (r4.take k, r4.drop k, pos4 + k)
          let (r6, pos6) : List Char × Nat :=
            match scanWsSeq ['='] r5 with
            | some n => (r5.drop n, pos5 + n)
            | none => (r5, pos5)
          let (r7, pos7) : List Char × Nat :=
            match findWsSeq closeD r6 with
            | none => ([], pos6 + r6.length)
            | some k => (r6.drop k, pos6 + k)
          match scanWsSeq closeD r7 with
          | none => .error ("Unclosed tag at " ++ toString pos7)
          | some n =>
            if n = 0 then .error ("Unclosed tag at " ++ toString pos7)
            else
              match compileTagsSplit value with
              | none => .error ("Invalid tags: " ++ String.mk value)
              | some (o2, c2) => parseLoop fuel o2 c2 (pos7 + n) (r7.drop n) stack acc1
        | '\x7b' :: r3 =>
          let wsW := countWs r3
          let r4 := r3.drop wsW
          let pos4 := posT + 1 + wsW
          let (value, r5, pos5) : List Char × List Char × Nat :=
            match findWsSeq ('\x7d' :: closeD) r4 with
            | none => (r4, [], pos4 + r4.length)
            | some k => (r4.take k, r4.drop k, pos4 + k)
          let (r6, pos6) : List Char × Nat :=
            match scanWsSeq ['\x7d'] r5 with
            | some n => (r5.drop n, pos5 + n)
            | none => (r5, pos5)
          let (r7, pos7) : List Char × Nat :=
            match findWsSeq closeD r6 with
            | none => ([], pos6 + r6.length)
            | some k => (r6.drop k, pos6 + k)
          match scanWsSeq closeD r7 with
          | none => .error ("Unclosed tag at " ++ toString pos7)
          | some n =>
            if n = 0 then .error ("Unclosed tag at " ++ toString pos7)
            else parseLoop fuel openD closeD (pos7 + n) (r7.drop n)
              stack (.unesc (String.mk value) :: acc1)
        | c :: r3 =>
          if c = '#' || c = '^' || c = '/' || c = '>' || c = '&' || c = '!' then
            match scanTagValue closeD r3 (posT + 1) with
            | .error e => .error e
            | .ok (value, r6, pos6) =>
              let nm := String.mk value
              if c = '#' then
                parseLoop fuel openD closeD pos6 r6 ((false, nm, acc1) :: stack) []
              else if c = '^' then
                parseLoop fuel openD closeD pos6 r6 ((true, nm, acc1) :: stack) []
              else if c = '/' then
                match stack with
                | [] => .error ("Unopened section \"" ++ nm ++ "\" at " ++ toString tagStart)
                | (isInv, onm, saved) :: stk =>
                  if onm ≠ nm then
                    .error ("Unclosed section \"" ++ onm ++ "\" at " ++ toString tagStart)
                  else
                    let tok := if isInv then MTok.inv onm acc1.reverse else MTok.sect onm acc1.reverse
                    parseLoop fuel openD closeD pos6 r6 stk (tok :: saved)
              else if c = '>' then
                parseLoop fuel openD closeD pos6 r6 stack (.ptag nm :: acc1)
              else if c = '&' then
                parseLoop fuel openD closeD pos6 r6 stack (.unesc nm :: acc1)
              else
                parseLoop fuel openD closeD pos6 r6 stack (.comment :: acc1)
          else
            match scanTagValue closeD r2 posT with
            | .error e => .error e
            | .ok (value, r6, pos6) =>
              parseLoop fuel openD closeD pos6 r6 stack (.name (String.mk value) :: acc1)
        | [] =>
          match scanTagValue closeD [] posT with
          | .error e => .error e
          | .ok (value, r6, pos6) =>
            parseLoop fuel openD closeD pos6 r6 stack (.name (String.mk value) :: acc1)

/-- mustache.js `parseTemplate` with the default delimiters
`\x7b\x7b`..`\x7d\x7d`. -/
def mustacheParse (template : String) : Except String (List MTok) :=
  parseLoop (template.data.length + 1) ['\x7b', '\x7b'] ['\x7d', '\x7d'] 0 template.data [] []

/-- JavaScript falsiness of a value tree (`!value`): `undefined`, `null`,
`false`, `0` and the empty string are falsy. -/
def jsFalsy : Value → Bool
  | .undefined => true
  | .null => true
  | .bool b => !b
  | .num q => q == 0
  | .str s => s = ""
  | .obj _ => false
  | .arr _ => false

/-- mustache.js `hasProperty(obj, propName)`: `propName in obj` for
`object`-typed non-null values only. -/
def hasPropertyB : Value → String → Bool
  | .obj fs, k => fs.any (fun p => p.1 == k)
  | .arr es, k =>
    k = "length" || (match canonIndex k with | some n => n < es.length | none => false)
  | _, _ => false

/-- mustache.js `primitiveHasOwnProperty`: own properties of autoboxed
primitives; of the modelled primitives only strings have own properties
(`length` and character indices). -/
def primHasOwn : Value → String → Bool
  | .str s, k =>
    k = "length" || (match canonIndex k with | some n => n < s.length | none => false)
  | _, _ => false

/-- JavaScript bracket access `v[k]` on an arbitrary value as performed by
the mustache lookup walk (primitives autobox: strings expose `length` and
character indices). -/
def jsGetProp : Value → String → Value
  | .obj fs, k => jsIndex (.obj fs) k
  | .arr es, k => jsIndex (.arr es) k
  | .str s, k =>
    if k = "length" then .num s.length
    else
      match canonIndex k with
      | some n =>
        match s.data.get? n with
        | some ch => .str (String.mk [ch])
        | none => .undefined
      | none => .undefined
  | _, _ => .undefined

/-- Dotted-name walk of mustache.js `Context.lookup`: descend while the
intermediate value is non-nullish; the lookup hit is decided at the last
segment via `hasProperty`/`primitiveHasOwnProperty`. -/
def deepWalk (v : Value) : List String → Value × Bool
  | [] => (v, false)
  | [last] =>
    match v with
    | .null => (v, false)
    | .undefined => (v, false)
    | _ => (jsGetProp v last, hasPropertyB v last || primHasOwn v last)
  | nm :: rest =>
    match v with
    | .null => (v, false)
    | .undefined => (v, false)
    | _ => deepWalk (jsGetProp v nm) rest
termination_by structural l => l

/-- One context frame of mustache.js `Context.lookup`: the deep branch is
taken when the name has a `.` at an index greater than zero, otherwise the
flat branch (`view[name]` with `hasProperty` only). -/
def frameLookup (view : Value) (name : String) : Value × Bool :=
  match findSeq ['.'] name.data with
  | some i =>
    if i > 0 then deepWalk view (jsSplitDot name)
    else (jsGetProp view name, hasPropertyB view name)
  | none => (jsGetProp view name, hasPropertyB view name)

/-- Walk up the context stack until a frame reports a lookup hit; with no
hit anywhere the value is the last (root) frame's miss value, as in
mustache.js where `intermediateValue` survives the loop. -/
def lookupGo (name : String) : List Value → Value → Value
  | [], lastVal => lastVal
  | v :: rest, _ =>
    let r := frameLookup v name
    if r.2 then r.1 else lookupGo name rest r.1

/-- mustache.js `Context.lookup`: the name `.` is pre-seeded in the context
cache as the current frame's view (the implicit iterator); other names walk
the frame stack. -/
def lookupStack (frames : List Value) (name : String) : Value :=
  match frames with
  | [] => .undefined
  | top :: _ => if name = "." then top else lookupGo name frames .undefined

mutual

/-- mustache.js `Writer.renderTokens` over a token list. -/
def renderMToks (stack : List Value) : List MTok → String
  | [] => ""
  | t :: ts => renderMTok stack t ++ renderMToks stack ts
termination_by structural toks => toks

/-- Rendering of one token: text verbatim; interpolations stringify the
looked-up value unless it is nullish (escaping is the identity, as
configured in src/engine/template.ts); comments and partials (no partials
are ever passed) render nothing; sections render per `renderSection` (an
array renders the body once per element with the element pushed; objects,
strings and numbers render once with the value pushed; `true` renders once
without pushing); inverted sections render on falsy or empty-array
values. -/
def renderMTok (stack : List Value) : MTok → String
  | .text s => s
  | .name n =>
    match lookupStack stack n with
    | .null => ""
    | .undefined => ""
    | v => jsValueToString v
  | .unesc n =>
    match lookupStack stack n with
    | .null => ""
    | .undefined => ""
    | v => jsValueToString v
  | .comment => ""
  | .ptag _ => ""
  | .sect n inner =>
    let v := lookupStack stack n
    if jsFalsy v then ""
    else
      match v with
      | .arr es => String.join (es.map (fun item => renderMToks (item :: stack) inner))
      | .obj fs => renderMToks (Value.obj fs :: stack) inner
      | .str s => renderMToks (Value.str s :: stack) inner
      | .num q => renderMToks (Value.num q :: stack) inner
      | _ => renderMToks stack inner
  | .inv n inner =>
    let v := lookupStack stack n
    if jsFalsy v || (match v with | .arr es => es.isEmpty | _ => false) then
      renderMToks stack inner
    else ""
termination_by structural t => t

end

/-- `Mustache.render(template, view)` as called by src/engine/template.ts:
parse (raising on malformed templates), then render the token tree against
the single-frame context stack. -/
def mustacheRender (template : String) (view : Value) : Except String String :=
  match mustacheParse template with
  | .error e => .error e
  | .ok toks => .ok (renderMToks [view] toks)

/-- `SpriteConfig` of src/types.ts. -/
structure SpriteConfig where
  name : String
  path : String
  cmd : Option String
  workdir : Option String

/-- The sprite record as a JavaScript value (absent optional fields are
absent keys). -/
def spriteToValue (s : SpriteConfig) : Value :=
  .obj ([("name", Value.str s.name), ("path", Value.str s.path)] ++
    (match s.cmd with | some c => [("cmd", Value.str c)] | none => []) ++
    (match s.workdir with | some w => [("workdir", Value.str w)] | none => []))

/-- `TemplateContext` of src/types.ts: optional payload plus the sprite
record.  In JavaScript the `payload` key is present (with value
`undefined`) even when no payload is supplied. -/
structure TemplateContext where
  payload : Option Value
  sprite : SpriteConfig

/-- The template context as the mustache view object. -/
def contextToValue (ctx : TemplateContext) : Value :=
  .obj [("payload", ctx.payload.getD Value.undefined), ("sprite", spriteToValue ctx.sprite)]

/-- `render(template, context)` of src/engine/template.ts:
`Mustache.render` with HTML escaping disabled. -/
def render (template : String) (context : TemplateContext) : Except String String :=
  mustacheRender template (contextToValue context)

/-- `WebhookSource | CronSource` of src/types.ts, modelled structurally as
in JavaScript: a `type` plus whichever of `events`/`schedule` keys the
record carries. -/
structure Source where
  type : String
  events : Option (List String)
  schedule : Option String

/-- `isWebhookSource` of src/types.ts: `type !== 'cron' && 'events' in
source`. -/
def isWebhookSource (s : Source) : Bool :=
  s.type != "cron" && s.events.isSome

/-- `isCronSource` of src/types.ts: `type === 'cron' && 'schedule' in
source`. -/
def isCronSource (s : Source) : Bool :=
  s.type == "cron" && s.schedule.isSome

/-- `Automation` of src/types.ts.  The `match` field is named `matchExprs`
here because `match` is a Lean keyword. -/
structure Automation where
  id : String
  description : Option String
  sprite : SpriteConfig
  source : Source
  matchExprs : Option (List String)
  run : String

/-- `ExecutionResult` of src/types.ts. -/
structure ExecutionResult where
  automationId : String
  success : Bool
  error : Option String

/-- Outcome of the outbound `fetch` to the Sprites API: accepted
(`response.ok`), a non-success status with its body text, or a thrown
network error. -/
inductive FetchOutcome where
  | accepted
  | errStatus (status : Nat) (bodyText : String)
  | throws (msg : String)

/-- The outbound request built by `execute` (src/engine/executor.ts),
modelled structurally: URL percent-encoding is not modelled, the query
parameters are carried as fields.  `cmd`/`dir` are set only when the
corresponding sprite field is present and non-empty (JavaScript truthiness
of the `if` guards). -/
structure ExecRequest where
  spriteName : String
  path : String
  cmd : Option String
  dir : Option String
  stdin : Bool
  body : String
  bearer : String

/-- Environment of `execute`: the `SPRITES_TOKEN` variable (`none` when
unset) and the transport, a function from the built request to its
outcome. -/
structure ExecEnv where
  spritesToken : Option String
  fetch : ExecRequest → FetchOutcome

/-- JavaScript truthiness guard for an optional string field
(`if (automation.sprite.cmd)`). -/
def truthyOpt (o : Option String) : Option String :=
  match o with
  | some s => if s = "" then none else some s
  | none => none

/-- `execute(automation, payload?)` of src/engine/executor.ts: missing (or
empty, hence falsy) token fails immediately; otherwise render the `run`
template, build the request, send it, and convert a non-success status or a
thrown error into a failed result.  The surrounding `try`/`catch` turns
every throw (including a mustache parse error) into a failed
`ExecutionResult`, so the promise always resolves; the model is
correspondingly total. -/
def execute (env : ExecEnv) (automation : Automation) (payload : Option Value) :
    ExecutionResult :=
  match truthyOpt env.spritesToken with
  | none => ⟨automation.id, false, some "SPRITES_TOKEN not configured"⟩
  | some tok =>
    match render automation.run ⟨payload, automation.sprite⟩ with
    | .error msg => ⟨automation.id, false, some msg⟩
    | .ok prompt =>
      match env.fetch
          ⟨automation.sprite.name, automation.sprite.path,
            truthyOpt automation.sprite.cmd, truthyOpt automation.sprite.workdir,
            true, prompt, tok⟩ with
      | .accepted => ⟨automation.id, true, none⟩
      | .errStatus status text =>
        ⟨automation.id, false,
          some ("Sprites API error: " ++ toString status ++ " - " ++ text)⟩
      | .throws msg => ⟨automation.id, false, some msg⟩

/-- `executeAll(automations, payload?)` of src/engine/executor.ts:
`Promise.all` over `map`, which resolves with the results in input order
(concurrency has no observable interleaving here: each execution only
touches its own automation). -/
def executeAll (env : ExecEnv) (automations : List Automation) (payload : Option Value) :
    List ExecutionResult :=
  automations.map (fun automation => execute env automation payload)

/-- The filter predicate of the webhook dispatcher
(src/routes/webhook.ts): webhook-typed source, matching source type,
event list containing the event type, and all match conditions passing. -/
def webhookFilter (sourceName eventType : String) (payload : Value) (a : Automation) :
    Bool :=
  isWebhookSource a.source &&
  a.source.type == sourceName &&
  (match a.source.events with
   | some es => es.contains eventType
   | none => false) &&
  evaluateMatches a.matchExprs payload

/-- Response of one webhook dispatch (src/routes/webhook.ts): success with
zero matches (HTTP 200), aggregate failure carrying all results (HTTP 500),
or success carrying the match count and all results (HTTP 200). -/
inductive WebhookResponse where
  | noMatch
  | failure (results : List ExecutionResult)
  | success (matched : Nat) (results : List ExecutionResult)

/-- The dispatch portion of `POST /webhook/:source`
(src/routes/webhook.ts) after adapter resolution, secret lookup, signature
validation, payload parsing, the Slack handshake special case and event
type determination: filter the catalog, short-circuit on zero matches,
execute all survivors, and aggregate (failure iff any result failed). -/
def dispatchValidated (env : ExecEnv) (catalog : List Automation)
    (sourceName eventType : String) (payload : Value) : WebhookResponse :=
  let matchingAutomations := catalog.filter (webhookFilter sourceName eventType payload)
  if matchingAutomations.length = 0 then .noMatch
  else
    let results := executeAll env matchingAutomations (some payload)
    let failures := results.filter (fun r => !r.success)
    if failures.length > 0 then .failure results
    else .success matchingAutomations.length results

/-- `parseInt(s, 10)`: skip leading whitespace, optional sign, then the
longest leading run of decimal digits; `none` models `NaN` (no digits). -/
def jsParseInt10 (s : String) : Option Int :=
  let t := s.data.dropWhile jsIsSpace
  let (sign, l1) : Int × List Char :=
    match t with
    | '+' :: r => (1, r)
    | '-' :: r => (-1, r)
    | _ => (1, t)
  let ds := l1.takeWhile isDigitChar
  if ds.isEmpty then none else some (sign * (digitsToNat ds : Int))

/-- `timingSafeEqual` on `Buffer.from` of two strings, after the explicit
length check of the adapters: equal byte length and equal bytes, which for
UTF-8 encodings is string equality. -/
def timingSafeEqStr (a b : String) : Bool :=
  if a.utf8ByteSize != b.utf8ByteSize then false else a == b

/-- `MAX_REQUEST_AGE_SECONDS` of src/adapters/slack.ts. -/
def maxRequestAgeSeconds : Int := 60 * 5

/-- `slackAdapter.validate` of src/adapters/slack.ts as a pure function of
the two headers (`none` = absent), the raw body, the secret, the current
Unix time and the HMAC-SHA256 hex function (kept abstract: the theorems
quantify over it).  An absent or empty header is falsy and rejects; a
timestamp differing from now by more than the replay window rejects (a
non-numeric timestamp gives `NaN`, whose comparison is false, so the age
check passes); otherwise the `v0=`-prefixed HMAC of
`v0:\x7btimestamp\x7d:\x7bbody\x7d` is compared timing-safely. -/
def slackValidate (hmacHex : String → String → String) (now : Int)
    (timestampHeader signatureHeader : Option String) (body secret : String) : Bool :=
  match timestampHeader, signatureHeader with
  | some ts, some sig =>
    if ts = "" || sig = "" then false
    else
      let ageFails : Bool :=
        match jsParseInt10 ts with
        | some t => decide ((now - t).natAbs > maxRequestAgeSeconds.natAbs)
        | none => false
      if ageFails then false
      else
        let expectedSignature := "v0=" ++ hmacHex secret ("v0:" ++ ts ++ ":" ++ body)
        timingSafeEqStr sig expectedSignature
  | _, _ => false

/-- `agentmailAdapter.validate` of src/adapters/agentmail.ts as committed:
the entire HMAC verification (signature header presence check, body HMAC
recomputation, timing-safe comparison) is commented out and the function
returns `true` unconditionally for every request and secret. -/
def agentmailValidate (signatureHeader : Option String) (body secret : String) : Bool :=
  true

/-- The body-HMAC check that the commented-out remainder of
`agentmailAdapter.validate` (and the adapter's own doc comment, PLAN.md and
the spec) describe: reject on a missing signature header, otherwise compare
the header against the HMAC-SHA256 hex digest of the raw body
timing-safely. -/
def agentmailDocumentedValidate (hmacHex : String → String → String)
    (signatureHeader : Option String) (body secret : String) : Bool :=
  match signatureHeader with
  | none => false
  | some sig => timingSafeEqStr sig (hmacHex secret body)

/-- State of the cron scheduler (src/cron/scheduler.ts).  `tasks` is the
`scheduledTasks` map as an insertion-ordered association list of automation
id to timer handle; `created` and `stopped` are history ghosts recording
every timer ever created by `cron.schedule` and every handle on which
`.stop()` was called, so that "active timer" (created and never stopped) is
expressible; `nextId` is the next fresh handle. -/
structure SchedState where
  tasks : List (String × Nat)
  created : List (String × Nat)
  stopped : List Nat
  nextId : Nat

/-- The empty scheduler state (module load time: `new Map()`). -/
def SchedState.empty : SchedState := ⟨[], [], [], 0⟩

/-- `Map.prototype.get`. -/
def mapGet (ts : List (String × Nat)) (id : String) : Option Nat :=
  (ts.find? (fun p => p.1 == id)).map (fun p => p.2)

/-- `Map.prototype.delete`. -/
def mapDelete (ts : List (String × Nat)) (id : String) : List (String × Nat) :=
  ts.filter (fun p => p.1 != id)

/-- `Map.prototype.set`: replace in place when the key exists, else append. -/
def mapSet (ts : List (String × Nat)) (id : String) (h : Nat) : List (String × Nat) :=
  if (ts.find? (fun p => p.1 == id)).isSome then
    ts.map (fun p => if p.1 == id then (p.1, h) else p)
  else ts ++ [(id, h)]

/-- `registerCronJob(automation)` of src/cron/scheduler.ts: refuse non-cron
sources and invalid cron expressions (`cron.validate`, kept abstract as the
`validate` parameter); stop and remove any existing task for the id; then
`cron.schedule` a fresh task (a fresh handle) and store it.  Returns the
new state and the boolean result. -/
def registerCronJob (validate : String → Bool) (a : Automation) (s : SchedState) :
    SchedState × Bool :=
  if !(isCronSource a.source) then (s, false)
  else
    let schedule := a.source.schedule.getD ""
    if !(validate schedule) then (s, false)
    else
      let s1 : SchedState :=
        match mapGet s.tasks a.id with
        | some h =>
          { s with tasks := mapDelete s.tasks a.id, stopped := h :: s.stopped }
        | none => s
      let h := s1.nextId
      ({ s1 with
          tasks := mapSet s1.tasks a.id h,
          created := (a.id, h) :: s1.created,
          nextId := h + 1 }, true)

/-- `unregisterCronJob(automationId)` of src/cron/scheduler.ts. -/
def unregisterCronJob (automationId : String) (s : SchedState) : SchedState × Bool :=
  match mapGet s.tasks automationId with
  | some h =>
    ({ s with tasks := mapDelete s.tasks automationId, stopped := h :: s.stopped }, true)
  | none => (s, false)

/-- `stopAllCronJobs()` of src/cron/scheduler.ts. -/
def stopAllCronJobs (s : SchedState) : SchedState :=
  { s with tasks := [], stopped := s.tasks.map (fun p => p.2) ++ s.stopped }

/-- The removal phase of `syncCronJobs`: unregister every live id that is
no longer a cron automation id of the catalog.  The JavaScript code
iterates the live map while deleting only the current key, which visits
exactly the keys present at the start. -/
def syncRemovePhase (cronIds : List String) (s : SchedState) : SchedState :=
  (s.tasks.map (fun p => p.1)).foldl
    (fun st id => if cronIds.contains id then st else (unregisterCronJob id st).1) s

/-- The registration phase of `syncCronJobs`: (re)register every cron
automation, counting successes and failures. -/
def syncRegisterPhase (validate : String → Bool) (cronAutomations : List Automation)
    (s : SchedState) : SchedState × Nat × Nat :=
  cronAutomations.foldl
    (fun acc a =>
      let r := registerCronJob validate a acc.1
      if r.2 then (r.1, acc.2.1 + 1, acc.2.2) else (r.1, acc.2.1, acc.2.2 + 1))
    (s, 0, 0)

/-- `syncCronJobs()` of src/cron/scheduler.ts with the catalog (already
loaded; the load-failure branch leaves the state untouched) passed in:
remove stale ids, then register or update every cron automation.  Returns
the new state and the `\x7bregistered, failed\x7d` counters. -/
def syncCronJobs (validate : String → Bool) (catalog : List Automation) (s : SchedState) :
    SchedState × Nat × Nat :=
  let cronAutomations := catalog.filter (fun a => isCronSource a.source)
  let cronIds := cronAutomations.map (fun a => a.id)
  syncRegisterPhase validate cronAutomations (syncRemovePhase cronIds s)

/-- Handles of timers that were created for `id` and never stopped: the
"active timers" of claim C8/C9. -/
def activeHandlesFor (s : SchedState) (id : String) : List Nat :=
  (s.created.filter (fun p => p.1 == id && !(s.stopped.contains p.2))).map (fun p => p.2)

/-- Well-formedness of the scheduler state, an invariant of all operations:
the live map has no duplicate ids, its entries are exactly the created and
never-stopped timers, handles are below the fresh counter, created handles
are distinct, and stopped handles are below the fresh counter. -/
def SchedInv (s : SchedState) : Prop :=
  (s.tasks.map (fun p => p.1)).Nodup ∧
  (∀ p ∈ s.tasks, p ∈ s.created ∧ s.stopped.contains p.2 = false) ∧
  (∀ p ∈ s.created, s.stopped.contains p.2 = false → p ∈ s.tasks) ∧
  (∀ p ∈ s.created, p.2 < s.nextId) ∧
  (s.created.map (fun p => p.2)).Nodup ∧
  (∀ h ∈ s.stopped, h < s.nextId)


/-- Scalar and nullish values: walking any further segment yields
`undefined`. -/
def isScalarOrNullish : Value → Bool
  | .undefined => true
  | .null => true
  | .bool _ => true
  | .num _ => true
  | .str _ => true
  | .obj _ => false
  | .arr _ => false

/-- Concrete fixtures used to exercise the models on closed inputs. -/
def cronSprite : SpriteConfig := ⟨"m", "claude", none, none⟩

/-- A cron automation with a valid schedule. -/
def cronAutoValid : Automation :=
  ⟨"daily", none, cronSprite, ⟨"cron", none, some "0 2 * * *"⟩, none, "r"⟩

/-- The same automation after its schedule was edited to an invalid
expression. -/
def cronAutoInvalid : Automation :=
  ⟨"daily", none, cronSprite, ⟨"cron", none, some "not a cron"⟩, none, "r"⟩

/-- A concrete `cron.validate` accepting exactly the valid schedule. -/
def cronValidate0 : String → Bool := fun sched => sched == "0 2 * * *"

/-- A webhook automation fixture. -/
def webhookAuto0 : Automation :=
  ⟨"a1", none, ⟨"sp", "claude", none, none⟩, ⟨"github", some ["push"], none⟩, none, "hi"⟩

/-- An executor environment whose transport always throws. -/
def throwEnv0 : ExecEnv := ⟨some "tok", fun _ => .throws "boom"⟩

/-! Helper lemmas (shared; not claim theorems). -/

/-- Walking any segments from `undefined` yields `undefined`. -/
theorem walkParts_undef (qs : List String) : walkParts Value.undefined qs = Value.undefined := by
  cases qs <;> rfl

/-- The path walk composes over list append. -/
theorem walkParts_append (ps qs : List String) (v : Value) :
    walkParts v (ps ++ qs) = walkParts (walkParts v ps) qs := by
  induction ps generalizing v with
  | nil => rfl
  | cons p ps ih =>
    cases v with
    | undefined => simp [walkParts, walkParts_undef]
    | null => simp [walkParts, walkParts_undef]
    | bool b => simp [walkParts, walkParts_undef]
    | num q => simp [walkParts, walkParts_undef]
    | str s => simp [walkParts, walkParts_undef]
    | obj fs => simpa [walkParts] using ih (jsIndex (.obj fs) p)
    | arr es => simpa [walkParts] using ih (jsIndex (.arr es) p)

/-- Walking at least one segment from a scalar or nullish value yields
`undefined`. -/
theorem walkParts_scalar (v : Value) (q : String) (qs : List String)
    (h : isScalarOrNullish v = true) : walkParts v (q :: qs) = Value.undefined := by
  cases v <;> simp_all [isScalarOrNullish, walkParts]

/-- A successful `findSeq` position is a prefix occurrence; conversely
`none` means no suffix starts with the pattern. -/
theorem findSeq_none_no_occurrence (pat : List Char) (s : List Char)
    (h : findSeq pat s = none) : ∀ i, pat.isPrefixOf (s.drop i) = false := by
  induction s with
  | nil =>
    intro i
    simp only [findSeq] at h
    cases hp : pat with
    | nil => simp [hp, List.isEmpty] at h
    | cons c cs => simp [List.drop_nil, List.isPrefixOf]
  | cons c cs ih =>
    intro i
    simp only [findSeq] at h
    cases hp : pat.isPrefixOf (c :: cs) with
    | true => simp [hp] at h
    | false =>
      simp only [hp, Bool.false_eq_true, if_false, Option.map_eq_none, Option.map_eq_none'] at h
      cases i with
      | zero => simpa using hp
      | succ j => simpa using ih h j

/-- A successful operator-regex match contains the operator as a contiguous
run: `matchOpTail` succeeded at some whitespace offset. -/
theorem matchOpTail_some_occurrence (op rest : List Char) (g : List Char)
    (h : matchOpTail op rest = some g) : ∃ j, op.isPrefixOf (rest.drop j) = true := by
  obtain ⟨j, _, hj⟩ := List.exists_of_findSome?_eq_some h
  by_cases hp : op.isPrefixOf (rest.drop j) = true
  · exact ⟨j, hp⟩
  · rw [if_neg (by simpa using hp)] at hj
    cases hj

/-- A successful `matchOpExpr` contains the operator as a contiguous run of
the expression. -/
theorem matchOpExpr_some_contains (op s : List Char) (g : List Char × List Char)
    (h : matchOpExpr op s = some g) : ∃ i, op.isPrefixOf (s.drop i) = true := by
  obtain ⟨i0, _, hi⟩ := List.exists_of_findSome?_eq_some h
  by_cases hd : (s.take (i0 + 1)).all isDotChar = true
  · rw [if_pos hd] at hi
    cases ht : matchOpTail op (s.drop (i0 + 1)) with
    | none => rw [ht] at hi; cases hi
    | some g2 =>
      obtain ⟨j, hj⟩ := matchOpTail_some_occurrence op _ g2 ht
      refine ⟨i0 + 1 + j, ?_⟩
      simpa only [List.drop_drop] using hj
  · rw [if_neg (by simpa using hd)] at hi
    cases hi

/-! Claim theorems. -/

/-- Claim C1 (code bug evidence): the committed `agentmailAdapter.validate`
returns `true` unconditionally — in particular for a request with no
`X-Agentmail-Signature` header — because the entire HMAC check is commented
out, while the body-HMAC check that the adapter documents (and that the
commented-out code implements) rejects such a request. -/
theorem agentmail_validate_accepts_everything :
    (∀ body secret, agentmailValidate none body secret = true) ∧
    (∀ hmacHex body secret,
      agentmailDocumentedValidate hmacHex none body secret = false) ∧
    agentmailValidate none "raw-body" "shared-secret" = true :=
  ⟨fun _ _ => rfl, fun _ _ _ => rfl, rfl⟩

/-- Claim C4 (confirmed): an empty or absent predicate list always matches,
and `evaluateMatches` is exactly the conjunction (`List.all`) of the
individual predicate evaluations against the context `\x7b payload \x7d`. -/
theorem evaluateMatches_is_conjunction :
    (∀ payload, evaluateMatches (some []) payload = true) ∧
    (∀ payload, evaluateMatches none payload = true) ∧
    (∀ exprs payload, evaluateMatches (some exprs) payload =
      exprs.all (fun expr => evaluateExpression expr (Value.obj [("payload", payload)]))) := by
  refine ⟨fun _ => rfl, fun _ => rfl, fun exprs payload => ?_⟩
  cases exprs with
  | nil => rfl
  | cons e es => rfl

/-- Claim C5 (confirmed): a predicate string containing neither `==` nor
`!=` as a substring matches neither operator regex, so `evaluateExpression`
logs and returns `false` (fails closed); the model is a total function, so
evaluation cannot raise. -/
theorem evaluateExpression_no_operator_fails_closed (expression : String) (context : Value)
    (hneq : findSeq ['!', '='] expression.data = none)
    (heq : findSeq ['=', '='] expression.data = none) :
    evaluateExpression expression context = false := by
  unfold evaluateExpression
  cases h1 : matchOpExpr ['!', '='] expression.data with
  | some g =>
    obtain ⟨i, hi⟩ := matchOpExpr_some_contains _ _ g h1
    rw [findSeq_none_no_occurrence _ _ hneq i] at hi
    cases hi
  | none =>
    cases h2 : matchOpExpr ['=', '='] expression.data with
    | some g =>
      obtain ⟨i, hi⟩ := matchOpExpr_some_contains _ _ g h2
      rw [findSeq_none_no_occurrence _ _ heq i] at hi
      cases hi
    | none => rfl

/-- Witness for C5: the concrete operator-free predicate of the spec's
error-handling scenario evaluates to `false`. -/
theorem evaluateExpression_no_operator_witness :
    findSeq ['!', '='] "payload.action equals opened".data = none ∧
    findSeq ['=', '='] "payload.action equals opened".data = none ∧
    evaluateExpression "payload.action equals opened" (Value.obj []) = false :=
  ⟨rfl, rfl,
    evaluateExpression_no_operator_fails_closed "payload.action equals opened"
      (Value.obj []) rfl rfl⟩

/-- Claim C6 (confirmed): `getNestedValue` is a total function (the model
never raises by construction) that splits the path on `.` and walks; a walk
that has reached `undefined` stays `undefined` under any suffix, and a walk
that has reached a scalar or nullish value yields `undefined` for any
non-empty suffix. -/
theorem getNestedValue_splits_and_absorbs :
    (∀ root path, getNestedValue root path = walkParts root (jsSplitDot path)) ∧
    (∀ v ps qs, walkParts v ps = Value.undefined →
      walkParts v (ps ++ qs) = Value.undefined) ∧
    (∀ v ps q qs, isScalarOrNullish (walkParts v ps) = true →
      walkParts v (ps ++ (q :: qs)) = Value.undefined) := by
  refine ⟨fun _ _ => rfl, fun v ps qs h => ?_, fun v ps q qs h => ?_⟩
  · rw [walkParts_append, h, walkParts_undef]
  · rw [walkParts_append, walkParts_scalar _ _ _ h]

/-- Witness for C6: resolving through a scalar (`a.b` is a string) yields
`undefined` for the extended path. -/
theorem getNestedValue_absorbs_witness :
    isScalarOrNullish (walkParts (Value.obj [("a", Value.str "x")]) ["a"]) = true ∧
    walkParts (Value.obj [("a", Value.str "x")]) (["a"] ++ ("b" :: ["c"])) = Value.undefined :=
  ⟨rfl, getNestedValue_splits_and_absorbs.2.2 (Value.obj [("a", Value.str "x")]) ["a"] "b" ["c"] rfl⟩

/-- Claim C7 (confirmed): the Slack adapter rejects when either header is
missing, and rejects any request whose (numeric) timestamp differs from the
current time by more than 300 seconds — for every carried signature, hence
in particular for the correctly computed HMAC signature. -/
theorem slackValidate_replay_and_missing_headers :
    (∀ hmacHex now sig body secret,
      slackValidate hmacHex now none sig body secret = false) ∧
    (∀ hmacHex now ts body secret,
      slackValidate hmacHex now ts none body secret = false) ∧
    (∀ hmacHex now ts t sig body secret, jsParseInt10 ts = some t →
      (now - t).natAbs > 300 →
      slackValidate hmacHex now (some ts) (some sig) body secret = false) ∧
    (∀ hmacHex now ts t body secret, jsParseInt10 ts = some t →
      (now - t).natAbs > 300 →
      slackValidate hmacHex now (some ts)
        (some ("v0=" ++ hmacHex secret ("v0:" ++ ts ++ ":" ++ body))) body secret = false) := by
  have key : ∀ (hmacHex : String → String → String) (now : Int) ts t sig body secret,
      jsParseInt10 ts = some t → (now - t).natAbs > 300 →
      slackValidate hmacHex now (some ts) (some sig) body secret = false := by
    intro hmacHex now ts t sig body secret hparse hage
    have h300 : (now - t).natAbs > maxRequestAgeSeconds.natAbs := by
      simpa [maxRequestAgeSeconds] using hage
    simp only [slackValidate, hparse]
    split
    · rfl
    · rw [decide_eq_true h300]
      rfl
  refine ⟨fun hmacHex now sig body secret => by cases sig <;> rfl,
          fun hmacHex now ts body secret => by cases ts <;> rfl,
          key,
          fun hmacHex now ts t body secret hparse hage =>
            key hmacHex now ts t _ body secret hparse hage⟩

/-- Witness for C7: a request 900 seconds old is rejected. -/
theorem slackValidate_replay_witness :
    jsParseInt10 "100" = some 100 ∧ ((1000 : Int) - 100).natAbs > 300 ∧
    slackValidate (fun _ _ => "d") 1000 (some "100") (some "v0=d") "body" "secret" = false :=
  ⟨rfl, by decide,
    slackValidate_replay_and_missing_headers.2.2.1 (fun _ _ => "d") 1000 "100" 100
      "v0=d" "body" "secret" rfl (by decide)⟩

/-- Every branch of `execute` reports the executed automation's id. -/
theorem execute_automationId (env : ExecEnv) (a : Automation) (payload : Option Value) :
    (execute env a payload).automationId = a.id := by
  unfold execute
  repeat' split
  all_goals rfl

/-- Claim C10 (confirmed): `executeAll` returns one result per input
automation, in input order, with matching ids; and `execute` converts a
missing (or empty, hence falsy) credential, a thrown fetch error and a
non-success status into a failed result instead of raising (the model is
total: every throw source inside the `try` is routed into the `catch`). -/
theorem executeAll_aligned_and_caught :
    (∀ env automations payload,
      (executeAll env automations payload).length = automations.length) ∧
    (∀ env automations payload,
      (executeAll env automations payload).map (fun r => r.automationId) =
        automations.map (fun a => a.id)) ∧
    (∀ fetchFn a payload,
      execute ⟨none, fetchFn⟩ a payload =
        ⟨a.id, false, some "SPRITES_TOKEN not configured"⟩) ∧
    (∀ fetchFn a payload,
      execute ⟨some "", fetchFn⟩ a payload =
        ⟨a.id, false, some "SPRITES_TOKEN not configured"⟩) ∧
    (∀ msg a payload,
      (execute ⟨some "tok", fun _ => .throws msg⟩ a payload).success = false) ∧
    (∀ status text a payload,
      (execute ⟨some "tok", fun _ => .errStatus status text⟩ a payload).success = false) := by
  refine ⟨fun env automations payload => by simp [executeAll],
          fun env automations payload => by
            simp [executeAll, List.map_map, Function.comp, execute_automationId],
          fun fetchFn a payload => rfl,
          fun fetchFn a payload => rfl,
          fun msg a payload => ?_,
          fun status text a payload => ?_⟩
  · cases hr : render a.run ⟨payload, a.sprite⟩ with
    | error m => simp [execute, truthyOpt, hr]
    | ok p => simp [execute, truthyOpt, hr]
  · cases hr : render a.run ⟨payload, a.sprite⟩ with
    | error m => simp [execute, truthyOpt, hr]
    | ok p => simp [execute, truthyOpt, hr]

/-- One scan step on input with no occurrence of the opening delimiter: the
whole rest is consumed as text and the scan ends. -/
theorem parseLoop_no_open (fuel : Nat) (openD closeD : List Char) (pos : Nat)
    (rest : List Char) (stack : List (Bool × String × List MTok)) (acc : List MTok)
    (h : findSeq openD rest = none) :
    parseLoop (fuel + 1) openD closeD pos rest stack acc =
      closeFrames (pos + rest.length) stack (pushText rest acc) := by
  rw [parseLoop.eq_2, h]

/-- Claim C2 (counterexample): rendering is not total — on the template
consisting of a single unclosed `\x7b\x7b` token, `Mustache.render` (and
hence `render`) raises `Unclosed tag` instead of returning a string. -/
theorem render_unclosed_tag_counterexample :
    render "\x7b\x7b" ⟨none, ⟨"sprite-1", "claude", none, none⟩⟩ =
      Except.error "Unclosed tag at 2" := rfl

/-- Claim C2 (amended, proved): `render` returns the template unchanged,
without raising, whenever the template contains no `\x7b\x7b` opening
delimiter; a template with an unclosed token raises `Unclosed tag` for
every context; and a well-formed token whose path resolves to an absent
value substitutes the empty string (spec §8 scenario). -/
theorem render_totality_amended :
    (∀ template context, findSeq ['\x7b', '\x7b'] template.data = none →
      render template context = Except.ok template) ∧
    (∀ context, render "x \x7b\x7by" context = Except.error "Unclosed tag at 5") ∧
    (render "hello \x7b\x7bpayload.user.name\x7d\x7d"
        ⟨some (Value.obj [("user", Value.obj [("name", Value.str "ann")])]),
          ⟨"sp", "claude", none, none⟩⟩ = Except.ok "hello ann") ∧
    (render "hello \x7b\x7bpayload.user.name\x7d\x7d"
        ⟨some (Value.obj []), ⟨"sp", "claude", none, none⟩⟩ = Except.ok "hello ") := by
  refine ⟨fun template context h => ?_, fun context => rfl, rfl, rfl⟩
  show mustacheRender template (contextToValue context) = Except.ok template
  obtain ⟨data⟩ := template
  unfold mustacheRender mustacheParse
  rw [parseLoop_no_open _ _ _ _ _ _ _ h]
  cases data with
  | nil => rfl
  | cons c cs =>
    have hcf : closeFrames (0 + (c :: cs).length) [] (pushText (c :: cs) []) =
        Except.ok [MTok.text (String.mk (c :: cs))] := rfl
    rw [hcf]
    show Except.ok (String.mk (c :: cs) ++ "") = Except.ok (String.mk (c :: cs))
    rw [String.append_empty]

/-- Witness for C2 (amended): a token-free template renders unchanged. -/
theorem render_totality_amended_witness :
    findSeq ['\x7b', '\x7b'] "plain command".data = none ∧
    render "plain command" ⟨none, ⟨"sp", "claude", none, none⟩⟩ =
      Except.ok "plain command" :=
  ⟨rfl, render_totality_amended.1 "plain command" ⟨none, ⟨"sp", "claude", none, none⟩⟩ rfl⟩

/-! Association-list lemmas for the scheduler live map. -/

/-- Deleting a key removes every binding for it. -/
theorem mapGet_mapDelete_self (ts : List (String × Nat)) (id : String) :
    mapGet (mapDelete ts id) id = none := by
  unfold mapGet mapDelete
  rw [List.find?_eq_none.mpr]
  · rfl
  · intro x hx
    rw [List.mem_filter] at hx
    have h2 := hx.2
    simp only [bne_iff_ne, ne_eq] at h2
    simp [h2]

/-- Deleting one key does not affect lookups of another. -/
theorem mapGet_mapDelete_other (ts : List (String × Nat)) (id id2 : String)
    (h : id ≠ id2) : mapGet (mapDelete ts id2) id = mapGet ts id := by
  unfold mapGet mapDelete
  induction ts with
  | nil => rfl
  | cons p ts ih =>
    by_cases hp : p.1 = id2
    · have hne : ¬((fun x : String × Nat => x.1 == id) p) = true := by
        simp only [hp, beq_iff_eq]
        exact fun hc => h hc.symm
      rw [List.filter_cons_of_neg (by simp [hp]),
        @List.find?_cons_of_neg _ (fun x : String × Nat => x.1 == id) p ts hne]
      exact ih
    · rw [List.filter_cons_of_pos (by simp [hp])]
      by_cases hq : p.1 = id
      · rw [@List.find?_cons_of_pos _ (fun x : String × Nat => x.1 == id) p
            (List.filter (fun x => x.1 != id2) ts) (by simp [hq]),
          @List.find?_cons_of_pos _ (fun x : String × Nat => x.1 == id) p ts (by simp [hq])]
      · rw [@List.find?_cons_of_neg _ (fun x : String × Nat => x.1 == id) p
            (List.filter (fun x => x.1 != id2) ts) (by simp [hq]),
          @List.find?_cons_of_neg _ (fun x : String × Nat => x.1 == id) p ts (by simp [hq])]
        exact ih

/-- Appending a binding for an absent key makes it found. -/
theorem mapGet_append_absent (ts : List (String × Nat)) (id : String) (h : Nat)
    (habs : ts.find? (fun p => p.1 == id) = none) :
    mapGet (ts ++ [(id, h)]) id = some h := by
  unfold mapGet
  rw [List.find?_append, habs]
  simp

/-- Setting an absent key is an append. -/
theorem mapSet_absent (ts : List (String × Nat)) (id : String) (h : Nat)
    (habs : ts.find? (fun p => p.1 == id) = none) :
    mapSet ts id h = ts ++ [(id, h)] := by
  unfold mapSet
  rw [habs]
  rfl

/-- Replacing the value at one key does not affect lookups of another. -/
theorem mapGet_mapReplace_other (ts : List (String × Nat)) (id id2 : String) (h : Nat)
    (hne : id ≠ id2) :
    mapGet (ts.map (fun p => if p.1 == id2 then (p.1, h) else p)) id = mapGet ts id := by
  unfold mapGet
  induction ts with
  | nil => rfl
  | cons p ts ih =>
    rw [List.map_cons]
    by_cases hp : p.1 = id2
    · have hnk : ¬((fun x : String × Nat => x.1 == id) p) = true := by
        simp only [hp, beq_iff_eq]
        exact fun hc => hne hc.symm
      rw [if_pos (by simp [hp]),
        @List.find?_cons_of_neg _ (fun x : String × Nat => x.1 == id) (p.1, h)
          (List.map (fun p => if (p.1 == id2) = true then (p.1, h) else p) ts)
          (by simpa [hp] using hnk),
        @List.find?_cons_of_neg _ (fun x : String × Nat => x.1 == id) p ts hnk]
      exact ih
    · rw [if_neg (by simp [hp])]
      by_cases hq : p.1 = id
      · rw [@List.find?_cons_of_pos _ (fun x : String × Nat => x.1 == id) p
            (List.map (fun p => if (p.1 == id2) = true then (p.1, h) else p) ts) (by simp [hq]),
          @List.find?_cons_of_pos _ (fun x : String × Nat => x.1 == id) p ts (by simp [hq])]
      · rw [@List.find?_cons_of_neg _ (fun x : String × Nat => x.1 == id) p
            (List.map (fun p => if (p.1 == id2) = true then (p.1, h) else p) ts) (by simp [hq]),
          @List.find?_cons_of_neg _ (fun x : String × Nat => x.1 == id) p ts (by simp [hq])]
        exact ih

/-- Setting one key does not affect lookups of another. -/
theorem mapGet_mapSet_other (ts : List (String × Nat)) (id id2 : String) (h : Nat)
    (hne : id ≠ id2) : mapGet (mapSet ts id2 h) id = mapGet ts id := by
  unfold mapSet
  split
  · exact mapGet_mapReplace_other ts id id2 h hne
  · unfold mapGet
    rw [List.find?_append]
    have hkey : ¬((fun x : String × Nat => x.1 == id) (id2, h)) = true := by
      simp only [beq_iff_eq]
      exact fun hc => hne hc.symm
    rw [@List.find?_cons_of_neg _ (fun x : String × Nat => x.1 == id) (id2, h) [] hkey,
      List.find?_nil]
    cases List.find? (fun p => p.1 == id) ts <;> rfl

/-- A successful lookup is a membership with the looked-up key. -/
theorem mem_of_mapGet_some (ts : List (String × Nat)) (id : String) (h : Nat)
    (hg : mapGet ts id = some h) : (id, h) ∈ ts := by
  unfold mapGet at hg
  cases hf : ts.find? (fun p => p.1 == id) with
  | none => rw [hf] at hg; cases hg
  | some p =>
    rw [hf] at hg
    have hmem := List.mem_of_find?_eq_some hf
    have hkey : p.1 = id := by simpa using List.find?_some hf
    have hval : p.2 = h := by simpa using hg
    have : p = (id, h) := by
      cases p
      simp_all
    rwa [this] at hmem

/-- A non-cron source or an invalid schedule leaves the scheduler state
untouched and reports failure. -/
theorem registerCronJob_not_valid (validate : String → Bool) (a : Automation) (s : SchedState)
    (h : isCronSource a.source = false ∨ validate (a.source.schedule.getD "") = false) :
    registerCronJob validate a s = (s, false) := by
  unfold registerCronJob
  rcases h with h | h
  · rw [if_pos (by simp [h])]
  · by_cases hc : isCronSource a.source = true
    · rw [if_neg (by simp [hc]), if_pos (by simp [h])]
    · rw [if_pos (by simp [Bool.eq_false_iff.mpr, Bool.not_eq_true] at hc ⊢; simp [hc])]

/-- A valid registration stores a timer under the automation's id. -/
theorem registerCronJob_self (validate : String → Bool) (a : Automation) (s : SchedState)
    (hc : isCronSource a.source = true) (hv : validate (a.source.schedule.getD "") = true) :
    ∃ h, mapGet (registerCronJob validate a s).1.tasks a.id = some h := by
  unfold registerCronJob
  rw [if_neg (by simp [hc]), if_neg (by simp [hv])]
  cases hget : mapGet s.tasks a.id with
  | none =>
    refine ⟨s.nextId, ?_⟩
    simp only [hget]
    have habs : s.tasks.find? (fun p => p.1 == a.id) = none := Option.map_eq_none'.mp hget
    rw [mapSet_absent _ _ _ habs]
    exact mapGet_append_absent _ _ _ habs
  | some h0 =>
    refine ⟨s.nextId, ?_⟩
    simp only [hget]
    have hdel : (mapDelete s.tasks a.id).find? (fun p => p.1 == a.id) = none :=
      Option.map_eq_none'.mp (mapGet_mapDelete_self s.tasks a.id)
    rw [mapSet_absent _ _ _ hdel]
    exact mapGet_append_absent _ _ _ hdel

/-- Registering one automation does not affect another id's timer binding. -/
theorem registerCronJob_other (validate : String → Bool) (b : Automation) (s : SchedState)
    (id : String) (hne : b.id ≠ id) :
    mapGet (registerCronJob validate b s).1.tasks id = mapGet s.tasks id := by
  by_cases h1 : isCronSource b.source = true
  · by_cases h2 : validate (b.source.schedule.getD "") = true
    · unfold registerCronJob
      rw [if_neg (by simp [h1]), if_neg (by simp [h2])]
      cases hget : mapGet s.tasks b.id with
      | none =>
        simp only [hget]
        exact mapGet_mapSet_other _ _ _ _ (fun hc => hne hc.symm)
      | some h0 =>
        simp only [hget]
        rw [mapGet_mapSet_other _ _ _ _ (fun hc => hne hc.symm)]
        exact mapGet_mapDelete_other _ _ _ (fun hc => hne hc.symm)
    · rw [registerCronJob_not_valid validate b s (Or.inr (by simpa using h2))]
  · rw [registerCronJob_not_valid validate b s (Or.inl (by simpa using h1))]

/-- Unregistering one id does not affect another id's timer binding. -/
theorem unregisterCronJob_other (id2 : String) (s : SchedState) (id : String)
    (hne : id2 ≠ id) :
    mapGet (unregisterCronJob id2 s).1.tasks id = mapGet s.tasks id := by
  unfold unregisterCronJob
  cases hget : mapGet s.tasks id2 with
  | none => simp only [hget]
  | some h0 =>
    simp only [hget]
    exact mapGet_mapDelete_other _ _ _ (fun hc => hne hc.symm)

/-- The removal phase never touches an id that is among the catalog's cron
ids. -/
theorem removeFold_preserves (cronIds : List String) (id : String)
    (hid : cronIds.contains id = true) :
    ∀ (l : List String) (s : SchedState),
      mapGet ((l.foldl
        (fun st i => if cronIds.contains i then st else (unregisterCronJob i st).1) s)).tasks id =
      mapGet s.tasks id := by
  intro l
  induction l with
  | nil => intro s; rfl
  | cons i l ih =>
    intro s
    rw [List.foldl_cons]
    by_cases hc : cronIds.contains i = true
    · rw [if_pos hc]
      exact ih s
    · rw [if_neg hc, ih _]
      refine unregisterCronJob_other i s id (fun he => hc (he ▸ hid))

/-- `syncRemovePhase` preserves the binding of every catalog cron id. -/
theorem syncRemovePhase_preserves (cronIds : List String) (s : SchedState) (id : String)
    (hid : cronIds.contains id = true) :
    mapGet (syncRemovePhase cronIds s).tasks id = mapGet s.tasks id :=
  removeFold_preserves cronIds id hid _ s

/-- The registration fold preserves the binding of an id for which every
same-id catalog entry fails registration. -/
theorem registerFold_preserves (validate : String → Bool) (id : String) :
    ∀ (l : List Automation),
      (∀ b ∈ l, b.id = id →
        (isCronSource b.source = false ∨ validate (b.source.schedule.getD "") = false)) →
      ∀ (s : SchedState) (c1 c2 : Nat),
        mapGet ((l.foldl
          (fun acc a =>
            let r := registerCronJob validate a acc.1
            if r.2 then (r.1, acc.2.1 + 1, acc.2.2) else (r.1, acc.2.1, acc.2.2 + 1))
          (s, c1, c2)).1).tasks id = mapGet s.tasks id := by
  intro l
  induction l with
  | nil => intro _ s c1 c2; rfl
  | cons b l ih =>
    intro hl s c1 c2
    rw [List.foldl_cons]
    have hstep : mapGet (registerCronJob validate b s).1.tasks id = mapGet s.tasks id := by
      by_cases hb : b.id = id
      · rw [registerCronJob_not_valid validate b s (hl b (List.mem_cons_self b l) hb)]
      · exact registerCronJob_other validate b s id hb
    have ih2 := ih (fun b2 hb2 => hl b2 (List.mem_cons_of_mem _ hb2))
    have hinit : (let r := registerCronJob validate b (s, c1, c2).1;
        if r.2 = true then (r.1, (s, c1, c2).2.1 + 1, (s, c1, c2).2.2)
        else (r.1, (s, c1, c2).2.1, (s, c1, c2).2.2 + 1)) =
        (if (registerCronJob validate b s).2 = true
          then ((registerCronJob validate b s).1, c1 + 1, c2)
          else ((registerCronJob validate b s).1, c1, c2 + 1)) := by
      by_cases hr : (registerCronJob validate b s).2 = true <;> simp [hr]
    rw [hinit]
    by_cases hr : (registerCronJob validate b s).2 = true
    · rw [if_pos hr, ih2 _ _ _, hstep]
    · rw [if_neg hr, ih2 _ _ _, hstep]

/-- The registration fold leaves every valid cron automation of a
duplicate-free catalog registered. -/
theorem registerFold_registers (validate : String → Bool) (b : Automation)
    (hc : isCronSource b.source = true) (hv : validate (b.source.schedule.getD "") = true) :
    ∀ (l : List Automation), b ∈ l → (l.map (fun x => x.id)).Nodup →
      ∀ (s : SchedState) (c1 c2 : Nat),
        (mapGet ((l.foldl
          (fun acc a =>
            let r := registerCronJob validate a acc.1
            if r.2 then (r.1, acc.2.1 + 1, acc.2.2) else (r.1, acc.2.1, acc.2.2 + 1))
          (s, c1, c2)).1).tasks b.id).isSome = true := by
  intro l
  induction l with
  | nil => intro hb; cases hb
  | cons x l ih =>
    intro hb hnd s c1 c2
    simp only [List.map_cons, List.nodup_cons] at hnd
    rw [List.foldl_cons]
    rcases List.mem_cons.mp hb with hbx | hbl
    · subst hbx
      obtain ⟨h, hh⟩ := registerCronJob_self validate b s hc hv
      have hpres := registerFold_preserves validate b.id l
        (fun b2 hb2 hbid => absurd (hbid ▸ List.mem_map_of_mem _ hb2) hnd.1)
      have hinit : (let r := registerCronJob validate b (s, c1, c2).1;
          if r.2 = true then (r.1, (s, c1, c2).2.1 + 1, (s, c1, c2).2.2)
          else (r.1, (s, c1, c2).2.1, (s, c1, c2).2.2 + 1)) =
          (if (registerCronJob validate b s).2 = true
            then ((registerCronJob validate b s).1, c1 + 1, c2)
            else ((registerCronJob validate b s).1, c1, c2 + 1)) := by
        by_cases hr : (registerCronJob validate b s).2 = true <;> simp [hr]
      rw [hinit]
      by_cases hr : (registerCronJob validate b s).2 = true
      · rw [if_pos hr, hpres _ _ _, hh]
        rfl
      · rw [if_neg hr, hpres _ _ _, hh]
        rfl
    · have ihl := ih hbl hnd.2
      have hinit : (let r := registerCronJob validate x (s, c1, c2).1;
          if r.2 = true then (r.1, (s, c1, c2).2.1 + 1, (s, c1, c2).2.2)
          else (r.1, (s, c1, c2).2.1, (s, c1, c2).2.2 + 1)) =
          (if (registerCronJob validate x s).2 = true
            then ((registerCronJob validate x s).1, c1 + 1, c2)
            else ((registerCronJob validate x s).1, c1, c2 + 1)) := by
        by_cases hr : (registerCronJob validate x s).2 = true <;> simp [hr]
      rw [hinit]
      by_cases hr : (registerCronJob validate x s).2 = true
      · rw [if_pos hr]
        exact ihl _ _ _
      · rw [if_neg hr]
        exact ihl _ _ _

/-- The empty scheduler state is well-formed. -/
theorem schedInv_empty : SchedInv SchedState.empty := by
  refine ⟨?_, ?_, ?_, ?_, ?_, ?_⟩ <;> simp [SchedState.empty]

/-- Entries of the live map with equal snapshots are equal: created handles
are distinct. -/
theorem created_snd_inj (s : SchedState) (hsnd : (s.created.map (fun p => p.2)).Nodup)
    (p q : String × Nat) (hp : p ∈ s.created) (hq : q ∈ s.created) (h : p.2 = q.2) :
    p = q :=
  List.inj_on_of_nodup_map hsnd hp hq h

/-- `registerCronJob` preserves the scheduler invariant. -/
theorem schedInv_register (validate : String → Bool) (a : Automation) (s : SchedState)
    (hs : SchedInv s) : SchedInv (registerCronJob validate a s).1 := by
  by_cases h1 : isCronSource a.source = true
  case neg =>
    rw [registerCronJob_not_valid validate a s (Or.inl (by simpa using h1))]
    exact hs
  by_cases h2 : validate (a.source.schedule.getD "") = true
  case neg =>
    rw [registerCronJob_not_valid validate a s (Or.inr (by simpa using h2))]
    exact hs
  obtain ⟨hnd, htc, hct, hbound, hsnd, hsb⟩ := hs
  have hnotstopped : ∀ h ∈ s.stopped, h ≠ s.nextId := by
    intro h hm he
    exact absurd (he ▸ hsb h hm) (lt_irrefl _)
  unfold registerCronJob
  rw [if_neg (by simp [h1]), if_neg (by simp [h2])]
  cases hget : mapGet s.tasks a.id with
  | none =>
    simp only [hget]
    have habs : s.tasks.find? (fun p => p.1 == a.id) = none := Option.map_eq_none'.mp hget
    rw [mapSet_absent _ _ _ habs]
    have hnokey : ∀ p ∈ s.tasks, p.1 ≠ a.id := by
      intro p hp
      simpa using List.find?_eq_none.mp habs p hp
    refine ⟨?_, ?_, ?_, ?_, ?_, ?_⟩
    · rw [List.map_append, List.nodup_append]
      refine ⟨hnd, by simp, ?_⟩
      intro x hx hx2
      simp only [List.map_cons, List.map_nil, List.mem_singleton] at hx2
      obtain ⟨p, hp, hpid⟩ := List.mem_map.mp hx
      exact hnokey p hp (hpid.trans hx2)
    · intro p hp
      rcases List.mem_append.mp hp with hp | hp
      · exact ⟨List.mem_cons_of_mem _ (htc p hp).1, (htc p hp).2⟩
      · rw [List.mem_singleton] at hp
        subst hp
        refine ⟨List.mem_cons_self _ _, ?_⟩
        rw [Bool.eq_false_iff]
        intro hc
        have hmem : s.nextId ∈ s.stopped := by simpa using hc
        exact hnotstopped _ hmem rfl
    · intro p hp hstop
      rcases List.mem_cons.mp hp with hp | hp
      · subst hp
        exact List.mem_append.mpr (Or.inr (List.mem_singleton.mpr rfl))
      · exact List.mem_append.mpr (Or.inl (hct p hp hstop))
    · intro p hp
      rcases List.mem_cons.mp hp with hp | hp
      · subst hp
        exact Nat.lt_succ_self _
      · exact Nat.lt_succ_of_lt (hbound p hp)
    · rw [List.map_cons, List.nodup_cons]
      refine ⟨?_, hsnd⟩
      intro hmem
      obtain ⟨p, hp, hp2⟩ := List.mem_map.mp hmem
      exact absurd (hp2 ▸ hbound p hp) (lt_irrefl _)
    · intro h hm
      exact Nat.lt_succ_of_lt (hsb h hm)
  | some h0 =>
    simp only [hget]
    have hdel : (mapDelete s.tasks a.id).find? (fun p => p.1 == a.id) = none :=
      Option.map_eq_none'.mp (mapGet_mapDelete_self s.tasks a.id)
    rw [mapSet_absent _ _ _ hdel]
    have hmem0 : (a.id, h0) ∈ s.tasks := mem_of_mapGet_some _ _ _ hget
    have hc0 : (a.id, h0) ∈ s.created := (htc _ hmem0).1
    have hlt0 : h0 < s.nextId := hbound _ hc0
    have hdelkey : ∀ p ∈ mapDelete s.tasks a.id, p.1 ≠ a.id := by
      intro p hp
      have h2p := (List.mem_filter.mp hp).2
      simpa using h2p
    have hdelmem : ∀ p ∈ mapDelete s.tasks a.id, p ∈ s.tasks :=
      fun p hp => (List.mem_filter.mp hp).1
    refine ⟨?_, ?_, ?_, ?_, ?_, ?_⟩
    · rw [List.map_append, List.nodup_append]
      refine ⟨List.Nodup.sublist ((List.filter_sublist _).map _) hnd, by simp, ?_⟩
      intro x hx hx2
      simp only [List.map_cons, List.map_nil, List.mem_singleton] at hx2
      obtain ⟨p, hp, hpid⟩ := List.mem_map.mp hx
      exact hdelkey p hp (hpid.trans hx2)
    · intro p hp
      rcases List.mem_append.mp hp with hp | hp
      · have hpt := hdelmem p hp
        refine ⟨List.mem_cons_of_mem _ (htc p hpt).1, ?_⟩
        rw [Bool.eq_false_iff]
        intro hc
        have hmem : p.2 ∈ h0 :: s.stopped := by simpa using hc
        rcases List.mem_cons.mp hmem with hmem | hmem
        · have : p = (a.id, h0) :=
            created_snd_inj s hsnd p (a.id, h0) (htc p hpt).1 hc0 hmem
          exact hdelkey p hp (by rw [this])
        · have := (htc p hpt).2
          rw [Bool.eq_false_iff] at this
          exact this (by simpa using hmem)
      · rw [List.mem_singleton] at hp
        subst hp
        refine ⟨List.mem_cons_self _ _, ?_⟩
        rw [Bool.eq_false_iff]
        intro hc
        have hmem : s.nextId ∈ h0 :: s.stopped := by simpa using hc
        rcases List.mem_cons.mp hmem with hmem | hmem
        · exact absurd (hmem ▸ hlt0) (lt_irrefl _)
        · exact hnotstopped _ hmem rfl
    · intro p hp hstop
      rcases List.mem_cons.mp hp with hp | hp
      · subst hp
        exact List.mem_append.mpr (Or.inr (List.mem_singleton.mpr rfl))
      · rw [Bool.eq_false_iff] at hstop
        have hne0 : p.2 ≠ h0 := by
          intro he
          exact hstop (by simp [he])
        have hnotst : s.stopped.contains p.2 = false := by
          rw [Bool.eq_false_iff]
          intro hc
          exact hstop (by simp; right; simpa using hc)
        have hpt : p ∈ s.tasks := hct p hp hnotst
        have hkey : p.1 ≠ a.id := by
          intro he
          have : p = (a.id, h0) :=
            List.inj_on_of_nodup_map hnd hpt hmem0 (by simpa using he)
          exact hne0 (by rw [this])
        refine List.mem_append.mpr (Or.inl ?_)
        unfold mapDelete
        rw [List.mem_filter]
        exact ⟨hpt, by simpa using hkey⟩
    · intro p hp
      rcases List.mem_cons.mp hp with hp | hp
      · subst hp
        exact Nat.lt_succ_self _
      · exact Nat.lt_succ_of_lt (hbound p hp)
    · rw [List.map_cons, List.nodup_cons]
      refine ⟨?_, hsnd⟩
      intro hmem
      obtain ⟨p, hp, hp2⟩ := List.mem_map.mp hmem
      exact absurd (hp2 ▸ hbound p hp) (lt_irrefl _)
    · intro h hm
      rcases List.mem_cons.mp hm with hm | hm
      · subst hm
        exact Nat.lt_succ_of_lt hlt0
      · exact Nat.lt_succ_of_lt (hsb h hm)

/-- `unregisterCronJob` preserves the scheduler invariant. -/
theorem schedInv_unregister (id : String) (s : SchedState) (hs : SchedInv s) :
    SchedInv (unregisterCronJob id s).1 := by
  obtain ⟨hnd, htc, hct, hbound, hsnd, hsb⟩ := hs
  unfold unregisterCronJob
  cases hget : mapGet s.tasks id with
  | none =>
    simp only [hget]
    exact ⟨hnd, htc, hct, hbound, hsnd, hsb⟩
  | some h0 =>
    simp only [hget]
    have hmem0 : (id, h0) ∈ s.tasks := mem_of_mapGet_some _ _ _ hget
    have hc0 : (id, h0) ∈ s.created := (htc _ hmem0).1
    have hlt0 : h0 < s.nextId := hbound _ hc0
    have hdelkey : ∀ p ∈ mapDelete s.tasks id, p.1 ≠ id := by
      intro p hp
      simpa using (List.mem_filter.mp hp).2
    have hdelmem : ∀ p ∈ mapDelete s.tasks id, p ∈ s.tasks :=
      fun p hp => (List.mem_filter.mp hp).1
    refine ⟨?_, ?_, ?_, ?_, ?_, ?_⟩
    · exact List.Nodup.sublist ((List.filter_sublist _).map _) hnd
    · intro p hp
      have hpt := hdelmem p hp
      refine ⟨(htc p hpt).1, ?_⟩
      rw [Bool.eq_false_iff]
      intro hc
      have hmem : p.2 ∈ h0 :: s.stopped := by simpa using hc
      rcases List.mem_cons.mp hmem with hm | hm
      · exact hdelkey p hp
          (by rw [created_snd_inj s hsnd p (id, h0) (htc p hpt).1 hc0 hm])
      · have hold := (htc p hpt).2
        rw [Bool.eq_false_iff] at hold
        exact hold (by simpa using hm)
    · intro p hp hstop
      rw [Bool.eq_false_iff] at hstop
      have hne0 : p.2 ≠ h0 := fun he => hstop (by simp [he])
      have hnotst : s.stopped.contains p.2 = false := by
        rw [Bool.eq_false_iff]
        intro hc
        refine hstop ?_
        simp only [List.contains_cons, Bool.or_eq_true]
        exact Or.inr hc
      have hpt := hct p hp hnotst
      have hkey : p.1 ≠ id := by
        intro he
        exact hne0
          (by rw [List.inj_on_of_nodup_map hnd hpt hmem0 (by simpa using he)])
      unfold mapDelete
      rw [List.mem_filter]
      exact ⟨hpt, by simpa using hkey⟩
    · exact hbound
    · exact hsnd
    · intro h hm
      rcases List.mem_cons.mp hm with hm | hm
      · subst hm
        exact hlt0
      · exact hsb h hm

/-- `stopAllCronJobs` preserves the scheduler invariant. -/
theorem schedInv_stopAll (s : SchedState) (hs : SchedInv s) :
    SchedInv (stopAllCronJobs s) := by
  obtain ⟨hnd, htc, hct, hbound, hsnd, hsb⟩ := hs
  refine ⟨by simp [stopAllCronJobs], ?_, ?_, ?_, ?_, ?_⟩
  · intro p hp
    simp [stopAllCronJobs] at hp
  · intro p hp hstop
    rw [Bool.eq_false_iff] at hstop
    exfalso
    by_cases hst : s.stopped.contains p.2 = true
    · refine hstop ?_
      have hmm : p.2 ∈ s.tasks.map (fun p => p.2) ++ s.stopped :=
        List.mem_append.mpr (Or.inr (by simpa using hst))
      exact List.contains_iff_exists_mem_beq.mpr ⟨p.2, hmm, by simp⟩
    · have hpt := hct p hp (Bool.eq_false_iff.mpr hst)
      refine hstop ?_
      have hmm : p.2 ∈ s.tasks.map (fun p => p.2) ++ s.stopped :=
        List.mem_append.mpr (Or.inl (List.mem_map_of_mem _ hpt))
      exact List.contains_iff_exists_mem_beq.mpr ⟨p.2, hmm, by simp⟩
  · exact hbound
  · exact hsnd
  · intro h hm
    have hm2 : h ∈ s.tasks.map (fun p => p.2) ++ s.stopped := hm
    rcases List.mem_append.mp hm2 with hm3 | hm3
    · obtain ⟨p, hp, hp2⟩ := List.mem_map.mp hm3
      exact hp2 ▸ hbound p (htc p hp).1
    · exact hsb h hm3

/-- The removal fold preserves the scheduler invariant. -/
theorem schedInv_removeFold (cronIds : List String) :
    ∀ (l : List String) (s : SchedState), SchedInv s →
      SchedInv (l.foldl
        (fun st i => if cronIds.contains i then st else (unregisterCronJob i st).1) s) := by
  intro l
  induction l with
  | nil => exact fun s hs => hs
  | cons i l ih =>
    intro s hs
    rw [List.foldl_cons]
    by_cases hc : cronIds.contains i = true
    · rw [if_pos hc]
      exact ih s hs
    · rw [if_neg hc]
      exact ih _ (schedInv_unregister i s hs)

/-- The registration fold preserves the scheduler invariant. -/
theorem schedInv_registerFold (validate : String → Bool) :
    ∀ (l : List Automation) (s : SchedState) (c1 c2 : Nat), SchedInv s →
      SchedInv ((l.foldl
        (fun acc a =>
          let r := registerCronJob validate a acc.1
          if r.2 then (r.1, acc.2.1 + 1, acc.2.2) else (r.1, acc.2.1, acc.2.2 + 1))
        (s, c1, c2)).1) := by
  intro l
  induction l with
  | nil => exact fun s c1 c2 hs => hs
  | cons b l ih =>
    intro s c1 c2 hs
    rw [List.foldl_cons]
    have hinit : (let r := registerCronJob validate b (s, c1, c2).1;
        if r.2 = true then (r.1, (s, c1, c2).2.1 + 1, (s, c1, c2).2.2)
        else (r.1, (s, c1, c2).2.1, (s, c1, c2).2.2 + 1)) =
        (if (registerCronJob validate b s).2 = true
          then ((registerCronJob validate b s).1, c1 + 1, c2)
          else ((registerCronJob validate b s).1, c1, c2 + 1)) := by
      by_cases hr : (registerCronJob validate b s).2 = true <;> simp [hr]
    rw [hinit]
    by_cases hr : (registerCronJob validate b s).2 = true
    · rw [if_pos hr]
      exact ih _ _ _ (schedInv_register validate b s hs)
    · rw [if_neg hr]
      exact ih _ _ _ (schedInv_register validate b s hs)

/-- `syncCronJobs` preserves the scheduler invariant. -/
theorem schedInv_sync (validate : String → Bool) (catalog : List Automation)
    (s : SchedState) (hs : SchedInv s) : SchedInv (syncCronJobs validate catalog s).1 := by
  unfold syncCronJobs syncRegisterPhase syncRemovePhase
  exact schedInv_registerFold validate _ _ 0 0 (schedInv_removeFold _ _ s hs)

/-- With the invariant, the active handle list for an id has no
duplicates. -/
theorem activeHandles_nodup (s : SchedState) (hs : SchedInv s) (id : String) :
    (activeHandlesFor s id).Nodup := by
  obtain ⟨-, -, -, -, hsnd, -⟩ := hs
  exact List.Nodup.sublist (List.Sublist.map _ (List.filter_sublist _)) hsnd

/-- An active handle for an id is the id's live-map binding. -/
theorem active_mem_task (s : SchedState) (hs : SchedInv s) (id : String) (h : Nat)
    (hm : h ∈ activeHandlesFor s id) : (id, h) ∈ s.tasks := by
  obtain ⟨-, -, hct, -, -, -⟩ := hs
  unfold activeHandlesFor at hm
  obtain ⟨p, hp, hp2⟩ := List.mem_map.mp hm
  rw [List.mem_filter] at hp
  obtain ⟨hpc, hcond⟩ := hp
  rw [Bool.and_eq_true] at hcond
  have hid : p.1 = id := by simpa using hcond.1
  have hstop : s.stopped.contains p.2 = false := by
    have h2 := hcond.2
    rwa [Bool.not_eq_eq_eq_not, Bool.not_true] at h2
  have hmem := hct p hpc hstop
  have hpe : p = (id, h) := by
    cases p
    simp_all
  rwa [hpe] at hmem

/-- The id's live-map binding is an active handle. -/
theorem task_mem_active (s : SchedState) (hs : SchedInv s) (id : String) (h : Nat)
    (hm : (id, h) ∈ s.tasks) : h ∈ activeHandlesFor s id := by
  obtain ⟨-, htc, -, -, -, -⟩ := hs
  unfold activeHandlesFor
  refine List.mem_map.mpr ⟨(id, h), ?_, rfl⟩
  rw [List.mem_filter]
  refine ⟨(htc _ hm).1, ?_⟩
  rw [Bool.and_eq_true]
  refine ⟨by simp, ?_⟩
  rw [(htc _ hm).2]
  rfl

/-- With the invariant there is at most one active timer per id. -/
theorem active_unique (s : SchedState) (hs : SchedInv s) (id : String) (h1 h2 : Nat)
    (hm1 : h1 ∈ activeHandlesFor s id) (hm2 : h2 ∈ activeHandlesFor s id) : h1 = h2 := by
  have t1 := active_mem_task s hs id h1 hm1
  have t2 := active_mem_task s hs id h2 hm2
  obtain ⟨hnd, -⟩ := hs
  have he := List.inj_on_of_nodup_map hnd t1 t2 rfl
  simpa using he

/-- A duplicate-free list whose every member equals a member `x` is `[x]`. -/
theorem nodup_all_eq_singleton {α : Type} (l : List α) (x : α) (hx : x ∈ l)
    (hall : ∀ y ∈ l, y = x) (hnd : l.Nodup) : l = [x] := by
  cases l with
  | nil => cases hx
  | cons a as =>
    have ha : a = x := hall a (List.mem_cons_self a as)
    subst ha
    rw [List.nodup_cons] at hnd
    cases as with
    | nil => rfl
    | cons b bs =>
      have hb : b = a := hall b (List.mem_cons_of_mem _ (List.mem_cons_self b bs))
      have hmem : a ∈ b :: bs := by
        rw [hb]
        exact List.mem_cons_self a bs
      exact absurd hmem hnd.1

/-- Registering the same valid automation twice leaves exactly one active
timer for its id. -/
theorem double_register_single (validate : String → Bool) (a : Automation) (s : SchedState)
    (hs : SchedInv s) (hc : isCronSource a.source = true)
    (hv : validate (a.source.schedule.getD "") = true) :
    ∃ h, activeHandlesFor
      (registerCronJob validate a (registerCronJob validate a s).1).1 a.id = [h] := by
  have hs1 : SchedInv (registerCronJob validate a s).1 := schedInv_register validate a s hs
  have hs2 : SchedInv (registerCronJob validate a (registerCronJob validate a s).1).1 :=
    schedInv_register validate a _ hs1
  obtain ⟨h, hh⟩ := registerCronJob_self validate a (registerCronJob validate a s).1 hc hv
  have hmem : (a.id, h) ∈ (registerCronJob validate a (registerCronJob validate a s).1).1.tasks :=
    mem_of_mapGet_some _ _ _ hh
  have hact := task_mem_active _ hs2 a.id h hmem
  exact ⟨h, nodup_all_eq_singleton _ h hact
    (fun y hy => active_unique _ hs2 a.id y h hy hact) (activeHandles_nodup _ hs2 a.id)⟩

/-- Claim C8 (confirmed): the scheduler live-set maps each id to at most one
active timer; this invariant holds initially and is preserved by
registration, unregistration, stop-all and reconciliation (registration
stops and removes the existing timer before the replacement is created); in
particular re-registering the same valid cron automation twice leaves
exactly one active timer for its id. -/
theorem scheduler_at_most_one_active_timer :
    SchedInv SchedState.empty ∧
    (∀ s, SchedInv s → ∀ id h1 h2,
      h1 ∈ activeHandlesFor s id → h2 ∈ activeHandlesFor s id → h1 = h2) ∧
    (∀ validate a s, SchedInv s → SchedInv (registerCronJob validate a s).1) ∧
    (∀ id s, SchedInv s → SchedInv (unregisterCronJob id s).1) ∧
    (∀ s, SchedInv s → SchedInv (stopAllCronJobs s)) ∧
    (∀ validate catalog s, SchedInv s → SchedInv (syncCronJobs validate catalog s).1) ∧
    (∀ validate a s, SchedInv s → isCronSource a.source = true →
      validate (a.source.schedule.getD "") = true →
      ∃ h, activeHandlesFor
        (registerCronJob validate a (registerCronJob validate a s).1).1 a.id = [h]) :=
  ⟨schedInv_empty,
    fun s hs id h1 h2 hm1 hm2 => active_unique s hs id h1 h2 hm1 hm2,
    fun validate a s hs => schedInv_register validate a s hs,
    fun id s hs => schedInv_unregister id s hs,
    fun s hs => schedInv_stopAll s hs,
    fun validate catalog s hs => schedInv_sync validate catalog s hs,
    fun validate a s hs hc hv => double_register_single validate a s hs hc hv⟩

/-- Witness for C8: double-registering the concrete valid cron automation
from the empty state leaves exactly one active timer for `daily`. -/
theorem scheduler_at_most_one_active_timer_witness :
    ∃ h, activeHandlesFor
      (registerCronJob cronValidate0 cronAutoValid
        (registerCronJob cronValidate0 cronAutoValid SchedState.empty).1).1
      cronAutoValid.id = [h] :=
  scheduler_at_most_one_active_timer.2.2.2.2.2.2 cronValidate0 cronAutoValid
    SchedState.empty schedInv_empty rfl rfl

/-- Claim C9 (counterexample): reconciling a catalog in which the `daily`
automation's schedule has become invalid does not unregister it — the timer
created by the previous reconciliation (handle 0) is still active and still
bound in the live map, although the automation's schedule now fails
validation. -/
theorem sync_invalid_schedule_counterexample :
    isCronSource cronAutoInvalid.source = true ∧
    cronValidate0 (cronAutoInvalid.source.schedule.getD "") = false ∧
    activeHandlesFor (syncCronJobs cronValidate0 [cronAutoInvalid]
        (syncCronJobs cronValidate0 [cronAutoValid] SchedState.empty).1).1 "daily" = [0] ∧
    mapGet (syncCronJobs cronValidate0 [cronAutoInvalid]
        (syncCronJobs cronValidate0 [cronAutoValid] SchedState.empty).1).1.tasks "daily" =
      some 0 :=
  ⟨rfl, rfl, rfl, rfl⟩

/-- Claim C9 (amended, proved): after `syncCronJobs`, a catalog cron
automation whose schedule fails validation is never newly registered — its
live-map binding is exactly what it was before the run (so a previously
unregistered id stays unregistered, while a stale previously registered
timer is retained untouched) — and every catalog cron automation with a
valid schedule ends up registered. -/
theorem sync_invalid_schedule_amended (validate : String → Bool)
    (catalog : List Automation) (s : SchedState) (a : Automation) (ha : a ∈ catalog)
    (hcron : isCronSource a.source = true)
    (hinv : validate (a.source.schedule.getD "") = false)
    (hnodup : (catalog.map (fun x => x.id)).Nodup) :
    (mapGet (syncCronJobs validate catalog s).1.tasks a.id = mapGet s.tasks a.id) ∧
    (mapGet s.tasks a.id = none →
      mapGet (syncCronJobs validate catalog s).1.tasks a.id = none) ∧
    (∀ b ∈ catalog, isCronSource b.source = true →
      validate (b.source.schedule.getD "") = true →
      (mapGet (syncCronJobs validate catalog s).1.tasks b.id).isSome = true) := by
  have hmain : mapGet (syncCronJobs validate catalog s).1.tasks a.id = mapGet s.tasks a.id := by
    unfold syncCronJobs syncRegisterPhase
    have hamem : a ∈ catalog.filter (fun x => isCronSource x.source) :=
      List.mem_filter.mpr ⟨ha, hcron⟩
    have haid : ((catalog.filter (fun x => isCronSource x.source)).map
        (fun x => x.id)).contains a.id = true :=
      List.contains_iff_exists_mem_beq.mpr
        ⟨a.id, List.mem_map_of_mem _ hamem, by simp⟩
    rw [registerFold_preserves validate a.id _
      (fun b hb hbid => Or.inr (by
        have hbcat : b ∈ catalog := (List.mem_filter.mp hb).1
        have hba : b = a := List.inj_on_of_nodup_map hnodup hbcat ha hbid
        rw [hba]
        exact hinv)) _ 0 0]
    exact syncRemovePhase_preserves _ _ _ haid
  refine ⟨hmain, fun hnone => hmain.trans hnone, ?_⟩
  intro b hb hbc hbv
  unfold syncCronJobs syncRegisterPhase
  have hbmem : b ∈ catalog.filter (fun x => isCronSource x.source) :=
    List.mem_filter.mpr ⟨hb, hbc⟩
  have hnd2 : ((catalog.filter (fun x => isCronSource x.source)).map
      (fun x => x.id)).Nodup :=
    List.Nodup.sublist (List.Sublist.map _ (List.filter_sublist _)) hnodup
  exact registerFold_registers validate b hbc hbv _ hbmem hnd2 _ 0 0

/-- Witness for C9 (amended): for the concrete catalog holding only the
now-invalid `daily` automation, the live-map binding of `daily` after the
sync equals its binding before. -/
theorem sync_invalid_schedule_amended_witness :
    cronAutoInvalid ∈ [cronAutoInvalid] ∧
    isCronSource cronAutoInvalid.source = true ∧
    cronValidate0 (cronAutoInvalid.source.schedule.getD "") = false ∧
    mapGet (syncCronJobs cronValidate0 [cronAutoInvalid] SchedState.empty).1.tasks
        cronAutoInvalid.id = mapGet SchedState.empty.tasks cronAutoInvalid.id :=
  ⟨List.mem_singleton.mpr rfl, rfl, rfl,
    (sync_invalid_schedule_amended cronValidate0 [cronAutoInvalid] SchedState.empty
      cronAutoInvalid (List.mem_singleton.mpr rfl) rfl rfl (by simp)).1⟩

/-- Positivity of a filtered length is existence of a satisfying member
(the dispatcher's `failures.length > 0` test). -/
theorem filter_length_pos_iff_any {α : Type} (l : List α) (p : α → Bool) :
    (l.filter p).length > 0 ↔ l.any p = true := by
  rw [gt_iff_lt, List.length_pos, Ne, List.filter_eq_nil_iff]
  simp [List.any_eq_true]

/-- Claim C3 (confirmed): the dispatcher executes exactly the catalog
automations that are webhook-typed with the inbound source name, advertise
the inbound event type and pass their match conditions; with zero survivors
it responds success-with-zero-matches without executing; otherwise it
responds failure exactly when some execution result failed, carrying the
full result list either way. -/
theorem dispatch_filters_and_aggregates (env : ExecEnv) (catalog : List Automation)
    (sourceName eventType : String) (payload : Value) :
    (∀ a, a ∈ catalog.filter (webhookFilter sourceName eventType payload) ↔
      (a ∈ catalog ∧ isWebhookSource a.source = true ∧ a.source.type = sourceName ∧
        (∃ es, a.source.events = some es ∧ eventType ∈ es) ∧
        evaluateMatches a.matchExprs payload = true)) ∧
    (catalog.filter (webhookFilter sourceName eventType payload) = [] →
      dispatchValidated env catalog sourceName eventType payload = .noMatch) ∧
    (∀ matching, matching = catalog.filter (webhookFilter sourceName eventType payload) →
      matching ≠ [] →
      dispatchValidated env catalog sourceName eventType payload =
        (if (executeAll env matching (some payload)).any (fun r => !r.success) then
          WebhookResponse.failure (executeAll env matching (some payload))
        else WebhookResponse.success matching.length
          (executeAll env matching (some payload)))) ∧
    (∀ results : List ExecutionResult,
      (results.any (fun r => !r.success) = true ↔ ∃ r ∈ results, r.success = false)) := by
  refine ⟨fun a => ?_, fun h => ?_, fun matching hm hne => ?_, fun results => ?_⟩
  · rw [List.mem_filter]
    unfold webhookFilter
    simp only [Bool.and_eq_true, beq_iff_eq]
    constructor
    · rintro ⟨ha, ⟨⟨⟨hw, htype⟩, hev⟩, hmatch⟩⟩
      refine ⟨ha, hw, htype, ?_, hmatch⟩
      cases hevs : a.source.events with
      | none => rw [hevs] at hev; cases hev
      | some es =>
        rw [hevs] at hev
        exact ⟨es, rfl, by simpa using hev⟩
    · rintro ⟨ha, hw, htype, ⟨es, hes, hmem⟩, hmatch⟩
      refine ⟨ha, ⟨⟨⟨hw, htype⟩, ?_⟩, hmatch⟩⟩
      rw [hes]
      simpa using hmem
  · unfold dispatchValidated
    rw [h]
    rfl
  · unfold dispatchValidated
    rw [← hm]
    rw [if_neg (by simpa [List.length_eq_zero] using hne)]
    by_cases hb : (executeAll env matching (some payload)).any (fun r => !r.success) = true
    · rw [if_pos ((filter_length_pos_iff_any _ _).mpr hb), if_pos hb]
    · rw [if_neg (fun hc => hb ((filter_length_pos_iff_any _ _).mp hc)), if_neg hb]
  · simp [List.any_eq_true]

/-- Witness for C3: one matching automation whose execution throws yields
an aggregate failure response carrying the single failed result. -/
theorem dispatch_filters_witness :
    dispatchValidated throwEnv0 [webhookAuto0] "github" "push" (Value.obj []) =
      WebhookResponse.failure [⟨"a1", false, some "boom"⟩] := by
  have h := (dispatch_filters_and_aggregates throwEnv0 [webhookAuto0] "github" "push"
    (Value.obj [])).2.2.1 [webhookAuto0] rfl (by simp)
  rw [h]
  rfl

end SpriteSwarm
